import Mathlib

/-!
Shallow embedding of `src/ds_trainer.py` (class `Trainer` with methods
`train`, `evaluate`, `save_model`).

Modelling conventions:
* Scalar tensor values (losses, logits) are rationals (`ℚ`); token ids and
  labels are integers (`ℤ`), with `-100` the ignore-index used by the code.
* The external framework pieces (`utils.mask_tokens`, the model forward pass,
  `nn.CrossEntropyLoss`, and the parameter update performed by
  `model.backward`/`model.step`) are parameters of the embedding, collected in
  an `Oracle` structure.  `mask_tokens` is random (dynamic masking), so it
  receives a fresh counter value at each call; the counter is threaded through
  the run in program order.
* A logits tensor of shape (positions, vocab) is a `List (List ℚ)`; a label
  tensor is a `List ℤ` of the same length, flattened over batch and sequence
  dimensions exactly as the boolean-mask indexing `logits[loss_mx]` flattens.
* Side effects (directory creation, file writes, log writes, stdout prints,
  model-state changes, checkpoint saves) are recorded as an explicit event
  trace.  Writing to the log after it has been closed is the Python
  `ValueError`, modelled as the `writeToClosedLog` error.
* `DataLoader` truthiness (`if valid_dataloader:`) follows Python semantics:
  `None` is falsy, and a loader over an empty dataset has length 0 and is
  falsy as well.
-/

namespace DsTrainer

/-- Logits at a sequence of token positions: one vocab-sized row per position. -/
abbrev Logits := List (List ℚ)

/-- One raw batch from a dataloader, before dynamic masking: `batch[0]` is the
token-id tensor, `batch[1]` the attention mask. -/
structure RawBatch where
  input : List ℤ
  attn : List ℤ
deriving DecidableEq

/-- The dictionary returned by `Trainer.evaluate` (key "loss"), possibly
augmented with the "train_loss" key added by `Trainer.train` via
`result.update`. -/
structure EvalResult where
  loss : ℚ
  trainLoss : Option ℚ
deriving DecidableEq

/-- `loss_mx = b_label != -100` (lines 96 and 179). -/
def lossMask (labels : List ℤ) : List Bool :=
  labels.map (fun l => decide (l ≠ -100))

/-- Boolean-mask tensor indexing `xs[mask]`: keep the entries at `true`
positions of the mask, in order. -/
def maskedSelect {α : Type} : List Bool → List α → List α
  | true :: m, x :: xs => x :: maskedSelect m xs
  | false :: m, _ :: xs => maskedSelect m xs
  | _, _ => []

/-- `logits[loss_mx].view(-1, vocab_size)` (lines 97 and 180): the logit rows
at positions whose label is not the ignore index. -/
def selLogits (labels : List ℤ) (logits : Logits) : Logits :=
  maskedSelect (lossMask labels) logits

/-- `b_label[loss_mx].view(-1)` (lines 98 and 181). -/
def selLabels (labels : List ℤ) : List ℤ :=
  maskedSelect (lossMask labels) labels

/-- `loss = self.loss_fn(logits, labels)` applied to the mask-selected logits
and labels (lines 96–99 and 179–182); `lossFn` abstracts
`nn.CrossEntropyLoss()`. -/
def maskedLoss (lossFn : Logits → List ℤ → ℚ) (labels : List ℤ)
    (logits : Logits) : ℚ :=
  lossFn (selLogits labels logits) (selLabels labels)

theorem maskedSelect_lossMask_self (labels : List ℤ) :
    maskedSelect (lossMask labels) labels
      = labels.filter (fun l => decide (l ≠ -100)) := by
  induction labels with
  | nil => rfl
  | cons l ls ih =>
    by_cases h : l = -100
    · subst h
      simpa [lossMask, maskedSelect, List.filter] using ih
    · simpa [lossMask, maskedSelect, List.filter, h] using ih

theorem maskedSelect_lossMask_zip {α : Type} (labels : List ℤ) (xs : List α)
    (h : xs.length = labels.length) :
    maskedSelect (lossMask labels) xs
      = ((xs.zip labels).filter (fun p => decide (p.2 ≠ -100))).map Prod.fst := by
  induction labels generalizing xs with
  | nil =>
    cases xs with
    | nil => rfl
    | cons x xs => simp at h
  | cons l ls ih =>
    cases xs with
    | nil => simp at h
    | cons x xs =>
      have hx : xs.length = ls.length := by simpa using h
      by_cases hl : l = -100
      · subst hl
        simpa [lossMask, maskedSelect, List.zip, List.filter] using ih xs hx
      · simpa [lossMask, maskedSelect, List.zip, List.filter, hl] using ih xs hx

theorem maskedSelect_lossMask_zip_snd (labels : List ℤ) {α : Type} (xs : List α)
    (h : xs.length = labels.length) :
    maskedSelect (lossMask labels) labels
      = ((xs.zip labels).filter (fun p => decide (p.2 ≠ -100))).map Prod.snd := by
  induction labels generalizing xs with
  | nil => simp [lossMask, maskedSelect]
  | cons l ls ih =>
    cases xs with
    | nil => simp at h
    | cons x xs =>
      have hx : xs.length = ls.length := by simpa using h
      by_cases hl : l = -100
      · subst hl
        simpa [lossMask, maskedSelect, List.zip, List.filter] using ih xs hx
      · simpa [lossMask, maskedSelect, List.zip, List.filter, hl] using ih xs hx

/-! ### Events, errors, and the external oracle -/

/-- One line of output; `print(...)` to stdout and `print(..., file=log)` to the
log file both carry a `LogMsg`.  Numeric payloads record the values the code
formats into the line. -/
inductive LogMsg
  | header
  | batchLine (epoch step : Nat) (avgBatchLoss : ℚ)
  | sepLine
  | evalLine (r : EvalResult)
  | earlyStopLine
  | blankLine
  | trainEndLine
  | bestLogLine (r : Option EvalResult)
  | timeLine
deriving DecidableEq

/-- Observable side effects of `train`/`evaluate`/`save_model`, in program
order. -/
inductive Ev
  | makeRunDir
  | writeParamsFile
  | stdout (m : LogMsg)
  | logWrite (m : LogMsg)
  | logClose
  | setTrainMode
  | setEvalMode
  | zeroGrad
  | forwardPass (gradEnabled : Bool)
  | backwardPass (loss : ℚ)
  | optStep
  | saveModelWeights
  | saveTokenizer
  | saveTrainingArgs
deriving DecidableEq

/-- Exceptions the Python code can raise in the modelled fragment. -/
inductive Err
  | noTrainData
  | zeroDivision
  | writeToClosedLog
deriving DecidableEq

/-- The external framework pieces, abstracted: `utils.mask_tokens` (with a
freshness counter standing for its randomness), the model forward pass
(depending on the current parameters `P`), `nn.CrossEntropyLoss()`, and the
parameter update that `model.backward(loss)` + `model.step()` performs. -/
structure Oracle (P : Type) where
  maskTokens : Nat → RawBatch → List ℤ × List ℤ
  forward : P → List ℤ → List ℤ → Logits
  lossFn : Logits → List ℤ → ℚ
  stepUpdate : P → ℚ → P

/-- The fields of `args` (and of the `Trainer` constructor) that the modelled
code reads.  `trainDataset` packages dataset + `DistributedSampler`
(reshuffled by `set_epoch`) + `DataLoader` as the per-epoch batch sequence;
`devDataset` packages the dev dataset through its (unshuffled) `DataLoader`. -/
structure Config (P : Type) where
  rank : Nat
  numTrainEpochs : Nat
  maxStopNumber : Nat
  loggingSteps : Nat
  initParams : P
  trainDataset : Option (Nat → List RawBatch)
  devDataset : Option (List RawBatch)

variable {P : Type}

/-- Lines 88–99 / 170–182: dynamically mask a batch, run the forward pass, and
compute the cross-entropy loss on the mask-selected logits and labels. -/
def batchMaskedLoss (o : Oracle P) (params : P) (t : Nat) (b : RawBatch) : ℚ :=
  let ml := o.maskTokens t b
  maskedLoss o.lossFn ml.2 (o.forward params ml.1 b.attn)

/-! ### `Trainer.evaluate` -/

/-- The loop of `evaluate` (lines 169–184): per-batch losses, the counter after
the loop, and the model-facing events (one no-grad forward per batch). -/
def evalBatches (o : Oracle P) (params : P) : List RawBatch → Nat → List ℚ × Nat × List Ev
  | [], t => ([], t, [])
  | b :: bs, t =>
    let loss := batchMaskedLoss o params t b
    let r := evalBatches o params bs (t + 1)
    (loss :: r.1, r.2.1, Ev.forwardPass false :: r.2.2)

/-- `np.mean` of a list of scalars. -/
def npMean (xs : List ℚ) : ℚ := xs.sum / (xs.length : ℚ)

/-- Output of `Trainer.evaluate`: the results dictionary, the counter after the
call, the event trace, and (observationally) the per-batch loss list. -/
structure EvalOut where
  result : EvalResult
  tAfter : Nat
  events : List Ev
  batchLosses : List ℚ

/-- `Trainer.evaluate` (lines 164–192): switch to eval mode, loop over the dev
batches computing masked losses under `torch.no_grad()`, return
`{"loss": np.mean(val_loss)}`. -/
def Trainer.evaluate (o : Oracle P) (params : P) (dev : List RawBatch) (t : Nat) : EvalOut :=
  let r := evalBatches o params dev t
  { result := { loss := npMean r.1, trainLoss := none }
    tAfter := r.2.1
    events := Ev.setEvalMode :: r.2.2
    batchLosses := r.1 }

/-! ### Model-state simulation (for the frame claim about `evaluate`) -/

inductive Mode
  | trainMode
  | evalMode
deriving DecidableEq

/-- The part of the model object's state the trace can affect: its parameters,
a pending gradient (set by `backward`, consumed by `step`), and its
train/eval mode. -/
structure ModelSim (P : Type) where
  params : P
  pending : Option ℚ
  mode : Mode

/-- Effect of one event on the model state; non-model events do nothing. -/
def simStep (o : Oracle P) (s : ModelSim P) : Ev → ModelSim P
  | Ev.setTrainMode => { s with mode := Mode.trainMode }
  | Ev.setEvalMode => { s with mode := Mode.evalMode }
  | Ev.backwardPass l => { s with pending := some l }
  | Ev.optStep =>
    match s.pending with
    | some l => { params := o.stepUpdate s.params l, pending := none, mode := s.mode }
    | none => s
  | _ => s

/-- Run a whole event trace through the model-state simulation. -/
def simRun (o : Oracle P) (s : ModelSim P) (evs : List Ev) : ModelSim P :=
  evs.foldl (simStep o) s

/-! ### `Trainer.train`: the inner batch loop -/

/-- State threaded through the batch loop of one epoch (lines 74 and 84–116). -/
structure BatchState (P : Type) where
  params : P
  t : Nat
  totalLoss : ℚ
  batchLoss : ℚ
  batchCounts : Nat
  events : List Ev

/-- The logging condition of line 110. -/
def logCond (rank loggingSteps nBatches step : Nat) : Bool :=
  rank == 0 && ((step % loggingSteps == 0 && step != 0) || step == nBatches - 1)

/-- The batch loop (lines 84–116): mask, forward, masked loss, accumulate,
backward + optimizer step, periodic logging. -/
def trainBatches (o : Oracle P) (epoch rank loggingSteps nBatches : Nat) :
    List RawBatch → Nat → BatchState P → BatchState P
  | [], _, s => s
  | b :: bs, step, s =>
    let loss := batchMaskedLoss o s.params s.t b
    let s1 : BatchState P :=
      { params := o.stepUpdate s.params loss
        t := s.t + 1
        totalLoss := s.totalLoss + loss
        batchLoss := s.batchLoss + loss
        batchCounts := s.batchCounts + 1
        events := s.events ++
          [Ev.zeroGrad, Ev.forwardPass true, Ev.backwardPass loss, Ev.optStep] }
    let s2 : BatchState P :=
      if logCond rank loggingSteps nBatches step then
        { s1 with
          events := s1.events ++
            [Ev.stdout (LogMsg.batchLine (epoch + 1) step (s1.batchLoss / (s1.batchCounts : ℚ))),
             Ev.logWrite (LogMsg.batchLine (epoch + 1) step (s1.batchLoss / (s1.batchCounts : ℚ)))]
          batchLoss := 0
          batchCounts := 0 }
      else s1
    trainBatches o epoch rank loggingSteps nBatches bs (step + 1) s2

/-- The sequence of per-batch losses an epoch produces, written as a direct
recursion over the batch list (the parameters advance by one optimizer step
per batch, the mask counter by one call per batch). -/
def batchLossSeq (o : Oracle P) : List RawBatch → P → Nat → List ℚ
  | [], _, _ => []
  | b :: bs, p, t =>
    let loss := batchMaskedLoss o p t b
    loss :: batchLossSeq o bs (o.stepUpdate p loss) (t + 1)

/-! ### `Trainer.train`: the epoch loop -/

/-- State threaded between epochs (lines 66–67 plus the model/mask state and
whether the log file is still open). -/
structure TrainState (P : Type) where
  params : P
  t : Nat
  lossCheck : ℚ
  stopCount : Nat
  bestLog : Option EvalResult
  logOpen : Bool

/-- Python's `round(x, 4)` (up to its tie-breaking convention, irrelevant
here). -/
def round4 (q : ℚ) : ℚ := ((round (q * 10000) : ℤ) : ℚ) / 10000

/-- A `print(x)` followed by `print(x, file=log)` guarded by
`if self.args.rank==0:`. -/
def rank0Print (rank : Nat) (m : LogMsg) : List Ev :=
  if rank == 0 then [Ev.stdout m, Ev.logWrite m] else []

/-- `Trainer.save_model` (lines 194–204): write the model weights, the
tokenizer, and the training arguments into the run directory. -/
def saveModelEvs : List Ev := [Ev.saveModelWeights, Ev.saveTokenizer, Ev.saveTrainingArgs]

/-- The `Time elapsed` print of lines 152–154 (stdout only, rank 0 only). -/
def timeEvs (rank : Nat) : List Ev :=
  if rank == 0 then [Ev.stdout LogMsg.timeLine] else []

/-- Result of the `if valid_dataloader:` branch of one epoch (lines 124–147). -/
structure DevOut (P : Type) where
  st : TrainState P
  events : List Ev
  broke : Bool
  result : EvalResult
  saved : Bool
  eout : EvalOut

/-- Lines 124–147: evaluate, add `train_loss`, print the result, compare with
`loss_check`, save on strict improvement, count a stop otherwise, and break
when `stop_count` reaches `max_stop_number` (closing the log on rank 0). -/
def devBranch (o : Oracle P) (rank maxStop : Nat) (d : List RawBatch) (avg : ℚ)
    (params : P) (t : Nat) (st : TrainState P) : DevOut P :=
  let eo := Trainer.evaluate o params d t
  let result : EvalResult := { eo.result with trainLoss := some (round4 avg) }
  let printEvs := rank0Print rank (LogMsg.evalLine result)
  let improved := decide (result.loss < st.lossCheck)
  let st1 : TrainState P :=
    if result.loss < st.lossCheck then
      { params := params, t := eo.tAfter, lossCheck := result.loss, stopCount := 0
        bestLog := some result, logOpen := st.logOpen }
    else
      { params := params, t := eo.tAfter, lossCheck := st.lossCheck
        stopCount := st.stopCount + 1, bestLog := st.bestLog, logOpen := st.logOpen }
  let saveEvs := if result.loss < st.lossCheck then saveModelEvs else []
  if maxStop ≤ st1.stopCount then
    let stopEvs :=
      if rank == 0 then
        [Ev.stdout LogMsg.earlyStopLine, Ev.logWrite LogMsg.earlyStopLine, Ev.logClose]
      else []
    { st := { st1 with logOpen := st1.logOpen && !(rank == 0) }
      events := eo.events ++ printEvs ++ saveEvs ++ stopEvs
      broke := true, result := result, saved := improved, eout := eo }
  else
    { st := st1, events := eo.events ++ printEvs ++ saveEvs, broke := false
      result := result, saved := improved, eout := eo }

/-- Observations of one iteration of the epoch loop: the state after the
epoch, the epoch's event trace, whether `break` fired, the exception raised
inside the epoch (if any), the epoch's average train loss, the evaluation
result (with `train_loss`), whether `save_model` ran, and the (parameters,
counter) pair at the `evaluate` call. -/
structure EpochOut (P : Type) where
  st : TrainState P
  events : List Ev
  broke : Bool
  error : Option Err
  avgTrainLoss : ℚ
  result : Option EvalResult
  saved : Bool
  evalCall : Option (P × Nat)
  epochIdx : Nat
  trainLosses : List ℚ

/-- The batch-loop state an epoch ends with, starting from the fresh
accumulators of line 74. -/
def epochBS (o : Oracle P) (rank loggingSteps : Nat) (trainLoader : Nat → List RawBatch)
    (epoch : Nat) (st : TrainState P) : BatchState P :=
  trainBatches o epoch rank loggingSteps (trainLoader epoch).length (trainLoader epoch) 0
    { params := st.params, t := st.t, totalLoss := 0, batchLoss := 0, batchCounts := 0
      events := [] }

/-- `avg_train_loss = total_loss / len(train_dataloader)` (line 119). -/
def epochAvg (o : Oracle P) (rank loggingSteps : Nat) (trainLoader : Nat → List RawBatch)
    (epoch : Nat) (st : TrainState P) : ℚ :=
  (epochBS o rank loggingSteps trainLoader epoch st).totalLoss
    / ((trainLoader epoch).length : ℚ)

/-- One iteration of the epoch loop (lines 71–154).  An empty train loader is
Python's `ZeroDivisionError` at `total_loss / len(train_dataloader)`; an
absent or empty dev loader is falsy, taking the save-every-epoch branch. -/
def runEpoch (o : Oracle P) (rank loggingSteps maxStop : Nat)
    (trainLoader : Nat → List RawBatch) (dev : Option (List RawBatch))
    (epoch : Nat) (st : TrainState P) : EpochOut P :=
  let batches := trainLoader epoch
  let headerEvs := Ev.setTrainMode :: rank0Print rank LogMsg.header
  let bs := epochBS o rank loggingSteps trainLoader epoch st
  let seq := batchLossSeq o batches st.params st.t
  if batches.length == 0 then
    { st := { st with params := bs.params, t := bs.t }
      events := headerEvs ++ bs.events, broke := false, error := some Err.zeroDivision
      avgTrainLoss := 0, result := none, saved := false, evalCall := none
      epochIdx := epoch, trainLosses := seq }
  else
    let avg := epochAvg o rank loggingSteps trainLoader epoch st
    let sepEvs := rank0Print rank LogMsg.sepLine
    match dev with
    | some d =>
      if d.length == 0 then
        { st := { st with params := bs.params, t := bs.t }
          events := headerEvs ++ bs.events ++ sepEvs ++ saveModelEvs ++ timeEvs rank
          broke := false, error := none, avgTrainLoss := avg, result := none
          saved := true, evalCall := none, epochIdx := epoch, trainLosses := seq }
      else
        let dout := devBranch o rank maxStop d avg bs.params bs.t st
        { st := dout.st
          events := headerEvs ++ bs.events ++ sepEvs ++ dout.events ++
            (if dout.broke then [] else timeEvs rank)
          broke := dout.broke, error := none, avgTrainLoss := avg
          result := some dout.result, saved := dout.saved
          evalCall := some (bs.params, bs.t), epochIdx := epoch, trainLosses := seq }
    | none =>
      { st := { st with params := bs.params, t := bs.t }
        events := headerEvs ++ bs.events ++ sepEvs ++ saveModelEvs ++ timeEvs rank
        broke := false, error := none, avgTrainLoss := avg, result := none
        saved := true, evalCall := none, epochIdx := epoch, trainLosses := seq }

/-- The epoch loop, driven by the number of remaining epochs; it stops early
when an epoch raised an exception or executed `break`. -/
def trainLoop (o : Oracle P) (rank loggingSteps maxStop : Nat)
    (trainLoader : Nat → List RawBatch) (dev : Option (List RawBatch)) :
    Nat → Nat → TrainState P → List (EpochOut P)
  | 0, _, _ => []
  | n + 1, epoch, st =>
    let eo := runEpoch o rank loggingSteps maxStop trainLoader dev epoch st
    if eo.error.isSome || eo.broke then [eo]
    else eo :: trainLoop o rank loggingSteps maxStop trainLoader dev n (epoch + 1) eo.st

/-- Lines 156–162: the training-end summary.  If the log was already closed by
early stopping, the first `print(..., file=log)` raises `ValueError` after the
two stdout prints. -/
def finale (rank : Nat) (st : TrainState P) : List Ev × Option Err :=
  if rank == 0 then
    if st.logOpen then
      ([Ev.stdout LogMsg.blankLine, Ev.stdout LogMsg.trainEndLine,
        Ev.logWrite LogMsg.trainEndLine, Ev.stdout (LogMsg.bestLogLine st.bestLog),
        Ev.logWrite (LogMsg.bestLogLine st.bestLog), Ev.logClose], none)
    else
      ([Ev.stdout LogMsg.blankLine, Ev.stdout LogMsg.trainEndLine],
        some Err.writeToClosedLog)
  else ([], none)

/-- Everything `Trainer.train` did: the full event trace, the exception it
raised (if any), the per-epoch observations, the final loop state, and
whether early stopping fired. -/
structure Outcome (P : Type) where
  events : List Ev
  error : Option Err
  epochs : List (EpochOut P)
  finalSt : TrainState P
  earlyStopped : Bool

/-- `best_log = None; loss_check, stop_count = 10000, 0` (lines 66–67), plus
the initial model parameters and mask counter, with the log just opened. -/
def initState (cfg : Config P) : TrainState P :=
  { params := cfg.initParams, t := 0, lossCheck := 10000, stopCount := 0
    bestLog := none, logOpen := true }

/-- Number of iterations the epoch loop executed. -/
def Outcome.epochsRun (out : Outcome P) : Nat := out.epochs.length

/-- `Trainer.train` (lines 38–162). -/
def Trainer.train (cfg : Config P) (o : Oracle P) : Outcome P :=
  match cfg.trainDataset with
  | none =>
    { events := [], error := some Err.noTrainData, epochs := []
      finalSt := { initState cfg with logOpen := false }, earlyStopped := false }
  | some f =>
    let st0 := initState cfg
    let setupEvs := [Ev.makeRunDir, Ev.writeParamsFile]
    let eps := trainLoop o cfg.rank cfg.loggingSteps cfg.maxStopNumber f cfg.devDataset
      cfg.numTrainEpochs 0 st0
    let stF := (eps.getLast?).elim st0 EpochOut.st
    let loopErr := (eps.getLast?).bind EpochOut.error
    let brk := (eps.getLast?).elim false EpochOut.broke
    let epochEvs := (eps.map EpochOut.events).flatten
    match loopErr with
    | some e =>
      { events := setupEvs ++ epochEvs, error := some e, epochs := eps
        finalSt := stF, earlyStopped := brk }
    | none =>
      let fin := finale cfg.rank stF
      { events := setupEvs ++ epochEvs ++ fin.1, error := fin.2, epochs := eps
        finalSt := stF, earlyStopped := brk }

/-! ### Specification-side functions (phrased from the spec's words) -/

/-- The minimum of 10000 and all validation losses observed so far. -/
def runMin (losses : List ℚ) : ℚ := losses.foldl min 10000

/-- Epoch `i` strictly improves the running minimum. -/
def improves (losses : List ℚ) (i : Nat) : Bool :=
  decide (losses.getD i 0 < runMin (losses.take i))

/-- The last epoch index that strictly improved the running minimum. -/
def lastImprove (losses : List ℚ) : Option Nat :=
  (List.range losses.length).reverse.find? (improves losses)

/-- The number of consecutive completed epochs since the last strict
improvement of the running minimum. -/
def sinceLastImprove (losses : List ℚ) : Nat :=
  match lastImprove losses with
  | some i => losses.length - (i + 1)
  | none => losses.length

/-- The evaluation result of the epoch that achieved the current minimum, if
any epoch did. -/
def bestLogSpec (results : List EvalResult) : Option EvalResult :=
  (lastImprove (results.map EvalResult.loss)).bind (fun i => results[i]?)

/-- Validation losses realized by a list of epochs. -/
def lossesOf (eps : List (EpochOut P)) : List ℚ :=
  eps.filterMap (fun eo => eo.result.map EvalResult.loss)

/-- Evaluation results realized by a list of epochs. -/
def resultsOf (eps : List (EpochOut P)) : List EvalResult :=
  eps.filterMap EpochOut.result

/-- Events a training batch step may emit. -/
def isTrainStepEv : Ev → Bool
  | Ev.zeroGrad => true
  | Ev.forwardPass g => g
  | Ev.backwardPass _ => true
  | Ev.optStep => true
  | Ev.stdout _ => true
  | Ev.logWrite _ => true
  | _ => false

/-! ### Concrete instances used to exercise the theorems -/

/-- A one-sentence batch: two token positions. -/
def wBatch : RawBatch := { input := [5, -100], attn := [1, 1] }

/-- A train loader serving the single batch every epoch. -/
def wLoader : Nat → List RawBatch := fun _ => [wBatch]

/-- An oracle whose per-call loss equals the value of the masking counter: the
`t`-th `mask_tokens` call produces the single label `t`, and the loss is the
sum of the selected labels.  Validation losses strictly increase over epochs. -/
def tOracle : Oracle Unit :=
  { maskTokens := fun t _ => ([(t : ℤ)], [(t : ℤ)])
    forward := fun _ ids _ => ids.map (fun i => [(i : ℚ)])
    lossFn := fun _ ls => (ls.map (fun x => (x : ℚ))).sum
    stepUpdate := fun p _ => p }

/-- Like `tOracle` but with strictly decreasing (negated) losses, so the
validation loss improves every epoch. -/
def dOracle : Oracle Unit :=
  { tOracle with lossFn := fun _ ls => -((ls.map (fun x => (x : ℚ))).sum) }

/-- Rank-0 configuration with a dev set: three epochs, patience one. -/
def tCfg : Config Unit :=
  { rank := 0, numTrainEpochs := 3, maxStopNumber := 1, loggingSteps := 1
    initParams := (), trainDataset := some wLoader, devDataset := some [wBatch] }

/-- The same configuration without a dev set. -/
def nCfg : Config Unit := { tCfg with devDataset := none }

/-- The same configuration without a train set. -/
def noneCfg : Config Unit := { tCfg with trainDataset := none }

/-! ### Lemmas about the specification-side functions -/

theorem runMin_nil : runMin ([] : List ℚ) = 10000 := rfl

theorem runMin_append (L : List ℚ) (l : ℚ) :
    runMin (L ++ [l]) = min (runMin L) l := by
  simp [runMin, List.foldl_append]

theorem min_eq_ite (a b : ℚ) : min a b = if b < a then b else a := by
  rcases lt_or_ge b a with h | h
  · simp [min_def, le_of_lt h, not_le.mpr h, h]
  · have hn : ¬ b < a := not_lt.mpr h
    rcases eq_or_lt_of_le h with h2 | h2
    · simp [min_def, h2, hn]
    · simp [min_def, le_of_lt h2, hn]

theorem lt_foldl_min_iff (q a : ℚ) (L : List ℚ) :
    q < L.foldl min a ↔ q < a ∧ ∀ l ∈ L, q < l := by
  induction L generalizing a with
  | nil => simp
  | cons l ls ih =>
    rw [List.foldl_cons, ih (min a l), lt_min_iff]
    constructor
    · rintro ⟨⟨h1, h2⟩, h3⟩
      refine ⟨h1, fun x hx => ?_⟩
      rcases (List.mem_cons).1 hx with hx | hx
      · exact hx ▸ h2
      · exact h3 x hx
    · rintro ⟨h1, h2⟩
      exact ⟨⟨h1, h2 l (by simp)⟩, fun x hx => h2 x (by simp [hx])⟩

theorem lt_runMin_iff (q : ℚ) (L : List ℚ) :
    q < runMin L ↔ q < 10000 ∧ ∀ l ∈ L, q < l :=
  lt_foldl_min_iff q 10000 L

theorem improves_append_of_lt (L : List ℚ) (l : ℚ) (i : Nat) (h : i < L.length) :
    improves (L ++ [l]) i = improves L i := by
  simp [improves, List.getD, List.getElem?_append_left h,
    List.take_append_of_le_length (le_of_lt h)]

theorem improves_append_self (L : List ℚ) (l : ℚ) :
    improves (L ++ [l]) L.length = decide (l < runMin L) := by
  have h1 : (L ++ [l])[L.length]? = some l := by simp
  have h2 : (L ++ [l]).take L.length = L := by
    rw [List.take_append_of_le_length (le_refl _), List.take_length]
  simp [improves, List.getD, h1, h2]

theorem find?_congr_mem {α : Type} (p q : α → Bool) (xs : List α)
    (h : ∀ x ∈ xs, p x = q x) : xs.find? p = xs.find? q := by
  induction xs with
  | nil => rfl
  | cons x xs ih =>
    have hx : p x = q x := h x (by simp)
    have ht : ∀ y ∈ xs, p y = q y := fun y hy => h y (by simp [hy])
    cases hq : q x with
    | true =>
      rw [List.find?_cons_of_pos _ (hx.trans hq), List.find?_cons_of_pos _ hq]
    | false =>
      rw [List.find?_cons_of_neg _ (by simp [hx, hq]),
        List.find?_cons_of_neg _ (by simp [hq]), ih ht]

theorem lastImprove_append (L : List ℚ) (l : ℚ) :
    lastImprove (L ++ [l])
      = if l < runMin L then some L.length else lastImprove L := by
  unfold lastImprove
  have hlen : (L ++ [l]).length = L.length + 1 := by simp
  rw [hlen, List.range_succ, List.reverse_append]
  have hcons : ([L.length].reverse ++ (List.range L.length).reverse)
      = L.length :: (List.range L.length).reverse := by simp
  rw [hcons]
  by_cases h : l < runMin L
  · rw [List.find?_cons_of_pos _ (by simp [improves_append_self, h])]
    simp [h]
  · rw [List.find?_cons_of_neg _ (by simp [improves_append_self, h])]
    simp only [h, if_false]
    exact find?_congr_mem _ _ _ (fun i hi => by
      have : i < L.length := by simpa using (List.mem_range.1 (List.mem_reverse.1 hi))
      exact improves_append_of_lt L l i this)

theorem lastImprove_lt (L : List ℚ) (i : Nat) (h : lastImprove L = some i) :
    i < L.length := by
  have := List.mem_of_find?_eq_some h
  simpa using this

theorem sinceLastImprove_nil : sinceLastImprove ([] : List ℚ) = 0 := rfl

theorem sinceLastImprove_append (L : List ℚ) (l : ℚ) :
    sinceLastImprove (L ++ [l])
      = if l < runMin L then 0 else sinceLastImprove L + 1 := by
  unfold sinceLastImprove
  rw [lastImprove_append]
  by_cases h : l < runMin L
  · simp [h]
  · simp only [h, if_false]
    cases hLI : lastImprove L with
    | none => simp
    | some i =>
      have hi := lastImprove_lt L i hLI
      simp only [List.length_append, List.length_singleton]
      omega

theorem bestLogSpec_nil : bestLogSpec [] = none := rfl

theorem bestLogSpec_append (R : List EvalResult) (r : EvalResult) :
    bestLogSpec (R ++ [r])
      = if r.loss < runMin (R.map EvalResult.loss) then some r
        else bestLogSpec R := by
  unfold bestLogSpec
  rw [List.map_append, List.map_cons, List.map_nil, lastImprove_append]
  by_cases h : r.loss < runMin (R.map EvalResult.loss)
  · simp [h]
  · simp only [h, if_false]
    cases hLI : lastImprove (R.map EvalResult.loss) with
    | none => simp
    | some i =>
      have hi : i < R.length := by
        have := lastImprove_lt _ i hLI
        simpa using this
      simp [List.getElem?_append_left hi]

/-! ### Lemmas about the batch loops -/

theorem trainBatches_state (o : Oracle P) (e r ls n : Nat) (bs : List RawBatch) :
    ∀ (step : Nat) (s : BatchState P),
      (trainBatches o e r ls n bs step s).totalLoss
          = s.totalLoss + (batchLossSeq o bs s.params s.t).sum
        ∧ (trainBatches o e r ls n bs step s).params
          = (trainBatches o e r ls n bs step s).params
        ∧ (trainBatches o e r ls n bs step s).t = s.t + bs.length := by
  induction bs with
  | nil => intro step s; simp [trainBatches, batchLossSeq]
  | cons b tl ih =>
    intro step s
    by_cases hc : logCond r ls n step
    · have h := ih (step + 1)
      simp only [trainBatches, hc, if_true, batchLossSeq]
      refine ⟨?_, trivial, ?_⟩
      · rw [(h _).1]; dsimp; ring
      · rw [(h _).2.2]; dsimp; omega
    · have h := ih (step + 1)
      simp only [trainBatches, hc, if_false, batchLossSeq]
      refine ⟨?_, trivial, ?_⟩
      · rw [(h _).1]; dsimp; ring
      · rw [(h _).2.2]; dsimp; omega

theorem trainBatches_counts (o : Oracle P) (e r ls n : Nat) (bs : List RawBatch) :
    ∀ (step : Nat) (s : BatchState P),
      ((trainBatches o e r ls n bs step s).events.count Ev.optStep
          = s.events.count Ev.optStep + bs.length)
        ∧ ((trainBatches o e r ls n bs step s).events.count (Ev.forwardPass true)
          = s.events.count (Ev.forwardPass true) + bs.length)
        ∧ ∀ x : Ev, isTrainStepEv x = false →
            (trainBatches o e r ls n bs step s).events.count x
              = s.events.count x := by
  induction bs with
  | nil => intro step s; simp [trainBatches]
  | cons b tl ih =>
    intro step s
    by_cases hc : logCond r ls n step <;>
    · simp only [trainBatches, hc, if_true, if_false]
      obtain ⟨h1, h2, h3⟩ := ih (step + 1) _
      refine ⟨?_, ?_, ?_⟩
      · rw [h1]; simp [List.count_append, List.count_cons]; omega
      · rw [h2]; simp [List.count_append, List.count_cons]; omega
      · intro x hx
        rw [h3 x hx]
        cases x <;> simp_all [isTrainStepEv, List.count_append, List.count_cons]

theorem evalBatches_losses (o : Oracle P) (params : P) (bs : List RawBatch) :
    ∀ t, (evalBatches o params bs t).1
      = (List.range bs.length).map
          (fun j => batchMaskedLoss o params (t + j) (bs.getD j ⟨[], []⟩)) := by
  induction bs with
  | nil => intro t; simp [evalBatches]
  | cons b tl ih =>
    intro t
    rw [evalBatches]
    dsimp only
    rw [ih (t + 1)]
    simp only [List.length_cons, List.range_succ_eq_map, List.map_cons, List.map_map]
    refine congrArg₂ List.cons (by simp) ?_
    refine List.map_congr_left (fun j _ => ?_)
    simp only [Function.comp_apply, List.getD_cons_succ]
    have h : t + (j + 1) = t + 1 + j := by omega
    rw [h]

theorem evalBatches_length (o : Oracle P) (params : P) (bs : List RawBatch) :
    ∀ t, (evalBatches o params bs t).1.length = bs.length := by
  induction bs with
  | nil => intro t; simp [evalBatches]
  | cons b tl ih => intro t; simp [evalBatches, ih (t + 1)]

theorem evalBatches_events (o : Oracle P) (params : P) (bs : List RawBatch) :
    ∀ t, (evalBatches o params bs t).2.2
      = List.replicate bs.length (Ev.forwardPass false) := by
  induction bs with
  | nil => intro t; simp [evalBatches]
  | cons b tl ih => intro t; simp [evalBatches, ih (t + 1), List.replicate_succ]

theorem evaluate_events (o : Oracle P) (params : P) (dev : List RawBatch) (t : Nat) :
    (Trainer.evaluate o params dev t).events
      = Ev.setEvalMode :: List.replicate dev.length (Ev.forwardPass false) := by
  simp [Trainer.evaluate, evalBatches_events]

theorem evaluate_loss (o : Oracle P) (params : P) (dev : List RawBatch) (t : Nat) :
    (Trainer.evaluate o params dev t).result.loss
      = ((List.range dev.length).map
          (fun j => batchMaskedLoss o params (t + j) (dev.getD j ⟨[], []⟩))).sum
        / (dev.length : ℚ) := by
  simp [Trainer.evaluate, npMean, evalBatches_losses, evalBatches_length]

theorem simRun_replicate_forward (o : Oracle P) (s : ModelSim P) (n : Nat) :
    simRun o s (List.replicate n (Ev.forwardPass false)) = s := by
  induction n generalizing s with
  | zero => rfl
  | succ n ih => simpa [simRun, List.replicate_succ, simStep] using ih s

/-! ### Lemmas about one epoch -/

theorem batchLossSeq_length (o : Oracle P) (bs : List RawBatch) :
    ∀ (p : P) (t : Nat), (batchLossSeq o bs p t).length = bs.length := by
  induction bs with
  | nil => intro p t; rfl
  | cons b tl ih => intro p t; simp [batchLossSeq, ih]

theorem devBranch_spec (o : Oracle P) (rank maxStop : Nat) (d : List RawBatch)
    (avg : ℚ) (params : P) (t : Nat) (st : TrainState P) :
    (devBranch o rank maxStop d avg params t st).result
        = { (Trainer.evaluate o params d t).result with trainLoss := some (round4 avg) }
      ∧ (devBranch o rank maxStop d avg params t st).st.lossCheck
        = (if (devBranch o rank maxStop d avg params t st).result.loss < st.lossCheck
            then (devBranch o rank maxStop d avg params t st).result.loss
            else st.lossCheck)
      ∧ (devBranch o rank maxStop d avg params t st).st.stopCount
        = (if (devBranch o rank maxStop d avg params t st).result.loss < st.lossCheck
            then 0 else st.stopCount + 1)
      ∧ (devBranch o rank maxStop d avg params t st).st.bestLog
        = (if (devBranch o rank maxStop d avg params t st).result.loss < st.lossCheck
            then some (devBranch o rank maxStop d avg params t st).result else st.bestLog)
      ∧ (devBranch o rank maxStop d avg params t st).saved
        = decide ((devBranch o rank maxStop d avg params t st).result.loss < st.lossCheck)
      ∧ (devBranch o rank maxStop d avg params t st).broke
        = decide (maxStop ≤ (devBranch o rank maxStop d avg params t st).st.stopCount)
      ∧ (devBranch o rank maxStop d avg params t st).st.logOpen
        = (st.logOpen &&
            !((devBranch o rank maxStop d avg params t st).broke && rank == 0)) := by
  simp only [devBranch]
  by_cases h1 : ({ (Trainer.evaluate o params d t).result with
      trainLoss := some (round4 avg) } : EvalResult).loss < st.lossCheck
  · by_cases h2 : maxStop ≤ 0
    · simp [h1, h2]
    · simp [h1, h2]
  · by_cases h2 : maxStop ≤ st.stopCount + 1
    · simp [h1, h2]
    · simp [h1, h2]

theorem devBranch_events (o : Oracle P) (rank maxStop : Nat) (d : List RawBatch)
    (avg : ℚ) (params : P) (t : Nat) (st : TrainState P) :
    (devBranch o rank maxStop d avg params t st).events
      = (Trainer.evaluate o params d t).events
        ++ rank0Print rank
            (LogMsg.evalLine (devBranch o rank maxStop d avg params t st).result)
        ++ (if (devBranch o rank maxStop d avg params t st).saved = true
            then saveModelEvs else [])
        ++ (if (devBranch o rank maxStop d avg params t st).broke = true then
              (if rank == 0 then
                [Ev.stdout LogMsg.earlyStopLine, Ev.logWrite LogMsg.earlyStopLine,
                  Ev.logClose]
               else [])
            else []) := by
  simp only [devBranch]
  by_cases h1 : ({ (Trainer.evaluate o params d t).result with
      trainLoss := some (round4 avg) } : EvalResult).loss < st.lossCheck
  · by_cases h2 : maxStop ≤ 0
    · simp [h1, h2]
    · simp [h1, h2]
  · by_cases h2 : maxStop ≤ st.stopCount + 1
    · simp [h1, h2]
    · simp [h1, h2]

theorem length_beq_zero_eq_false {α : Type} (l : List α) (h : l ≠ []) :
    (l.length == 0) = false := by
  cases l with
  | nil => exact absurd rfl h
  | cons a tl => rfl

theorem runEpoch_dev_eq (o : Oracle P) (rank ls maxStop : Nat)
    (f : Nat → List RawBatch) (d : List RawBatch) (epoch : Nat) (st : TrainState P)
    (hb : f epoch ≠ []) (hd : d ≠ []) :
    runEpoch o rank ls maxStop f (some d) epoch st
      = { st := (devBranch o rank maxStop d (epochAvg o rank ls f epoch st)
                  (epochBS o rank ls f epoch st).params
                  (epochBS o rank ls f epoch st).t st).st
          events := (Ev.setTrainMode :: rank0Print rank LogMsg.header)
              ++ (epochBS o rank ls f epoch st).events
              ++ rank0Print rank LogMsg.sepLine
              ++ (devBranch o rank maxStop d (epochAvg o rank ls f epoch st)
                  (epochBS o rank ls f epoch st).params
                  (epochBS o rank ls f epoch st).t st).events
              ++ (if (devBranch o rank maxStop d (epochAvg o rank ls f epoch st)
                      (epochBS o rank ls f epoch st).params
                      (epochBS o rank ls f epoch st).t st).broke
                  then [] else timeEvs rank)
          broke := (devBranch o rank maxStop d (epochAvg o rank ls f epoch st)
                  (epochBS o rank ls f epoch st).params
                  (epochBS o rank ls f epoch st).t st).broke
          error := none
          avgTrainLoss := epochAvg o rank ls f epoch st
          result := some (devBranch o rank maxStop d (epochAvg o rank ls f epoch st)
                  (epochBS o rank ls f epoch st).params
                  (epochBS o rank ls f epoch st).t st).result
          saved := (devBranch o rank maxStop d (epochAvg o rank ls f epoch st)
                  (epochBS o rank ls f epoch st).params
                  (epochBS o rank ls f epoch st).t st).saved
          evalCall := some ((epochBS o rank ls f epoch st).params,
                  (epochBS o rank ls f epoch st).t)
          epochIdx := epoch
          trainLosses := batchLossSeq o (f epoch) st.params st.t } := by
  have hb' := length_beq_zero_eq_false _ hb
  have hd' := length_beq_zero_eq_false _ hd
  simp [runEpoch, hb', hd']

theorem runEpoch_nodev_eq (o : Oracle P) (rank ls maxStop : Nat)
    (f : Nat → List RawBatch) (epoch : Nat) (st : TrainState P)
    (hb : f epoch ≠ []) :
    runEpoch o rank ls maxStop f none epoch st
      = { st :=
            { st with
              params := (epochBS o rank ls f epoch st).params
              t := (epochBS o rank ls f epoch st).t }
          events := (Ev.setTrainMode :: rank0Print rank LogMsg.header)
              ++ (epochBS o rank ls f epoch st).events
              ++ rank0Print rank LogMsg.sepLine ++ saveModelEvs ++ timeEvs rank
          broke := false
          error := none
          avgTrainLoss := epochAvg o rank ls f epoch st
          result := none
          saved := true
          evalCall := none
          epochIdx := epoch
          trainLosses := batchLossSeq o (f epoch) st.params st.t } := by
  have hb' := length_beq_zero_eq_false _ hb
  simp [runEpoch, hb']

theorem runEpoch_epochIdx (o : Oracle P) (rank ls maxStop : Nat)
    (f : Nat → List RawBatch) (dev : Option (List RawBatch)) (epoch : Nat)
    (st : TrainState P) :
    (runEpoch o rank ls maxStop f dev epoch st).epochIdx = epoch := by
  by_cases hb : ((f epoch).length == 0) = true
  · simp [runEpoch, hb]
  · cases dev with
    | none => simp [runEpoch, hb]
    | some d =>
      by_cases hd : (d.length == 0) = true
      · simp [runEpoch, hb, hd]
      · simp [runEpoch, hb, hd]

theorem runEpoch_broke_logOpen (o : Oracle P) (ls maxStop : Nat)
    (f : Nat → List RawBatch) (dev : Option (List RawBatch)) (epoch : Nat)
    (st : TrainState P)
    (h : (runEpoch o 0 ls maxStop f dev epoch st).broke = true) :
    (runEpoch o 0 ls maxStop f dev epoch st).st.logOpen = false
      ∧ (runEpoch o 0 ls maxStop f dev epoch st).error = none := by
  by_cases hb : ((f epoch).length == 0) = true
  · simp [runEpoch, hb] at h
  · cases dev with
    | none => simp [runEpoch, hb] at h
    | some d =>
      by_cases hd : (d.length == 0) = true
      · simp [runEpoch, hb, hd] at h
      · simp only [runEpoch, hb, hd] at h ⊢
        simp only [Bool.false_eq_true, if_false] at h ⊢
        have hs := (devBranch_spec o 0 maxStop d
          (epochAvg o 0 ls f epoch st) (epochBS o 0 ls f epoch st).params
          (epochBS o 0 ls f epoch st).t st).2.2.2.2.2.2
        constructor
        · dsimp only at h ⊢
          rw [hs, h]
          simp
        · trivial

/-! ### Structural lemmas about the epoch loop -/

theorem lossesOf_nil : lossesOf ([] : List (EpochOut P)) = [] := rfl

theorem resultsOf_nil : resultsOf ([] : List (EpochOut P)) = [] := rfl

theorem lossesOf_cons_some (eo : EpochOut P) (r : EvalResult) (X : List (EpochOut P))
    (h : eo.result = some r) : lossesOf (eo :: X) = r.loss :: lossesOf X := by
  simp [lossesOf, List.filterMap_cons, h]

theorem resultsOf_cons_some (eo : EpochOut P) (r : EvalResult) (X : List (EpochOut P))
    (h : eo.result = some r) : resultsOf (eo :: X) = r :: resultsOf X := by
  simp [resultsOf, List.filterMap_cons, h]

theorem trainLoop_length_le (o : Oracle P) (rank ls maxStop : Nat)
    (f : Nat → List RawBatch) (dev : Option (List RawBatch)) :
    ∀ (n epoch : Nat) (st : TrainState P),
      (trainLoop o rank ls maxStop f dev n epoch st).length ≤ n := by
  intro n
  induction n with
  | zero => intro epoch st; simp [trainLoop]
  | succ n ih =>
    intro epoch st
    rw [trainLoop]
    split
    · simp
    · simpa using Nat.succ_le_succ (ih (epoch + 1) _)

theorem trainLoop_ne_nil (o : Oracle P) (rank ls maxStop : Nat)
    (f : Nat → List RawBatch) (dev : Option (List RawBatch))
    (n epoch : Nat) (st : TrainState P) (hn : 0 < n) :
    trainLoop o rank ls maxStop f dev n epoch st ≠ [] := by
  cases n with
  | zero => exact absurd hn (by simp)
  | succ n =>
    rw [trainLoop]
    split <;> simp

theorem trainLoop_epochIdx (o : Oracle P) (rank ls maxStop : Nat)
    (f : Nat → List RawBatch) (dev : Option (List RawBatch)) :
    ∀ (n epoch : Nat) (st : TrainState P) (i : Nat) (eo : EpochOut P),
      (trainLoop o rank ls maxStop f dev n epoch st)[i]? = some eo →
      eo.epochIdx = epoch + i := by
  intro n
  induction n with
  | zero => intro epoch st i eo h; simp [trainLoop] at h
  | succ n ih =>
    intro epoch st i eo h
    rw [trainLoop] at h
    split at h
    · cases i with
      | zero =>
        simp at h
        subst h
        simpa using runEpoch_epochIdx o rank ls maxStop f dev epoch st
      | succ j => simp at h
    · cases i with
      | zero =>
        simp at h
        subst h
        simpa using runEpoch_epochIdx o rank ls maxStop f dev epoch st
      | succ j =>
        simp only [List.getElem?_cons_succ] at h
        have := ih (epoch + 1) _ j eo h
        omega

theorem trainLoop_not_last (o : Oracle P) (rank ls maxStop : Nat)
    (f : Nat → List RawBatch) (dev : Option (List RawBatch)) :
    ∀ (n epoch : Nat) (st : TrainState P) (i : Nat) (eo eo' : EpochOut P),
      (trainLoop o rank ls maxStop f dev n epoch st)[i]? = some eo →
      (trainLoop o rank ls maxStop f dev n epoch st)[i + 1]? = some eo' →
      eo.broke = false ∧ eo.error = none := by
  intro n
  induction n with
  | zero => intro epoch st i eo eo' h h'; simp [trainLoop] at h
  | succ n ih =>
    intro epoch st i eo eo' h h'
    rw [trainLoop] at h h'
    by_cases hg : ((runEpoch o rank ls maxStop f dev epoch st).error.isSome
        || (runEpoch o rank ls maxStop f dev epoch st).broke) = true
    · rw [if_pos hg] at h h'
      cases i with
      | zero => simp at h'
      | succ j => simp at h
    · rw [if_neg hg] at h h'
      cases i with
      | zero =>
        simp only [List.getElem?_cons_zero, Option.some_inj] at h
        have hg2 : (runEpoch o rank ls maxStop f dev epoch st).broke = false
            ∧ (runEpoch o rank ls maxStop f dev epoch st).error = none := by
          constructor
          · cases hbr : (runEpoch o rank ls maxStop f dev epoch st).broke with
            | false => rfl
            | true => exact absurd (by simp [hbr]) hg
          · cases herr2 : (runEpoch o rank ls maxStop f dev epoch st).error with
            | none => rfl
            | some e => exact absurd (by simp [herr2]) hg
        rw [← h]
        exact hg2
      | succ j =>
        simp only [List.getElem?_cons_succ] at h h'
        exact ih (epoch + 1) _ j eo eo' h h'

theorem trainLoop_full_of_no_stop (o : Oracle P) (rank ls maxStop : Nat)
    (f : Nat → List RawBatch) (dev : Option (List RawBatch))
    (herr : ∀ (epoch : Nat) (st : TrainState P),
      (runEpoch o rank ls maxStop f dev epoch st).error = none) :
    ∀ (n epoch : Nat) (st : TrainState P),
      ((trainLoop o rank ls maxStop f dev n epoch st).getLast?).elim false
          EpochOut.broke = false →
      (trainLoop o rank ls maxStop f dev n epoch st).length = n := by
  intro n
  induction n with
  | zero => intro epoch st h; simp [trainLoop]
  | succ n ih =>
    intro epoch st h
    rw [trainLoop] at h ⊢
    have he := herr epoch st
    by_cases hg : ((runEpoch o rank ls maxStop f dev epoch st).error.isSome
        || (runEpoch o rank ls maxStop f dev epoch st).broke) = true
    · rw [if_pos hg] at h
      have hbr : (runEpoch o rank ls maxStop f dev epoch st).broke = true := by
        simpa [he] using hg
      simp at h
      rw [hbr] at h
      exact absurd h (by simp)
    · rw [if_neg hg] at h ⊢
      cases n with
      | zero => simp [trainLoop]
      | succ m =>
        have hne := trainLoop_ne_nil o rank ls maxStop f dev (m + 1) (epoch + 1)
          (runEpoch o rank ls maxStop f dev epoch st).st (Nat.succ_pos m)
        obtain ⟨y, ys, hys⟩ := List.exists_cons_of_ne_nil hne
        have h' : ((trainLoop o rank ls maxStop f dev (m + 1) (epoch + 1)
            (runEpoch o rank ls maxStop f dev epoch st).st).getLast?).elim false
            EpochOut.broke = false := by
          rw [hys]
          rw [hys] at h
          simpa [List.getLast?_cons_cons] using h
        have hlen := ih (epoch + 1)
          (runEpoch o rank ls maxStop f dev epoch st).st h'
        simp [hlen]

theorem runEpoch_dev_fields (o : Oracle P) (rank ls maxStop : Nat)
    (f : Nat → List RawBatch) (d : List RawBatch) (epoch : Nat) (st : TrainState P)
    (hb : f epoch ≠ []) (hd : d ≠ []) :
    ∃ r : EvalResult,
      (runEpoch o rank ls maxStop f (some d) epoch st).result = some r
        ∧ (runEpoch o rank ls maxStop f (some d) epoch st).error = none
        ∧ (runEpoch o rank ls maxStop f (some d) epoch st).st.lossCheck
            = (if r.loss < st.lossCheck then r.loss else st.lossCheck)
        ∧ (runEpoch o rank ls maxStop f (some d) epoch st).st.stopCount
            = (if r.loss < st.lossCheck then 0 else st.stopCount + 1)
        ∧ (runEpoch o rank ls maxStop f (some d) epoch st).st.bestLog
            = (if r.loss < st.lossCheck then some r else st.bestLog)
        ∧ (runEpoch o rank ls maxStop f (some d) epoch st).saved
            = decide (r.loss < st.lossCheck)
        ∧ (runEpoch o rank ls maxStop f (some d) epoch st).broke
            = decide (maxStop ≤
                (runEpoch o rank ls maxStop f (some d) epoch st).st.stopCount) := by
  obtain ⟨h1, h2, h3, h4, h5, h6, h7⟩ := devBranch_spec o rank maxStop d
    (epochAvg o rank ls f epoch st) (epochBS o rank ls f epoch st).params
    (epochBS o rank ls f epoch st).t st
  rw [runEpoch_dev_eq o rank ls maxStop f d epoch st hb hd]
  exact ⟨_, rfl, rfl, h2, h3, h4, h5, h6⟩

theorem trainLoop_dev_inv (o : Oracle P) (rank ls maxStop : Nat)
    (f : Nat → List RawBatch) (d : List RawBatch)
    (hf : ∀ e, f e ≠ []) (hd : d ≠ []) :
    ∀ (n epoch : Nat) (st : TrainState P) (R : List EvalResult),
      st.lossCheck = runMin (R.map EvalResult.loss) →
      st.stopCount = sinceLastImprove (R.map EvalResult.loss) →
      st.bestLog = bestLogSpec R →
      ∀ (i : Nat) (eo : EpochOut P),
        (trainLoop o rank ls maxStop f (some d) n epoch st)[i]? = some eo →
        ∃ r : EvalResult,
          eo.result = some r
            ∧ eo.error = none
            ∧ eo.st.lossCheck
              = runMin (R.map EvalResult.loss ++ lossesOf
                  ((trainLoop o rank ls maxStop f (some d) n epoch st).take (i + 1)))
            ∧ eo.st.stopCount
              = sinceLastImprove (R.map EvalResult.loss ++ lossesOf
                  ((trainLoop o rank ls maxStop f (some d) n epoch st).take (i + 1)))
            ∧ eo.st.bestLog
              = bestLogSpec (R ++ resultsOf
                  ((trainLoop o rank ls maxStop f (some d) n epoch st).take (i + 1)))
            ∧ eo.saved
              = decide (r.loss < runMin (R.map EvalResult.loss ++ lossesOf
                  ((trainLoop o rank ls maxStop f (some d) n epoch st).take i)))
            ∧ eo.broke
              = decide (maxStop ≤ sinceLastImprove (R.map EvalResult.loss ++ lossesOf
                  ((trainLoop o rank ls maxStop f (some d) n epoch st).take (i + 1)))) := by
  intro n
  induction n with
  | zero => intro epoch st R h1 h2 h3 i eo h; simp [trainLoop] at h
  | succ n ih =>
    intro epoch st R h1 h2 h3 i eo hget
    obtain ⟨r0, hr, herr0, hlc, hsc, hbl, hsv, hbr⟩ :=
      runEpoch_dev_fields o rank ls maxStop f d epoch st (hf epoch) hd
    have hL : (R ++ [r0]).map EvalResult.loss
        = R.map EvalResult.loss ++ [r0.loss] := by simp
    have hlc' : (runEpoch o rank ls maxStop f (some d) epoch st).st.lossCheck
        = runMin (R.map EvalResult.loss ++ [r0.loss]) := by
      rw [hlc, runMin_append, min_eq_ite, h1]
    have hsc' : (runEpoch o rank ls maxStop f (some d) epoch st).st.stopCount
        = sinceLastImprove (R.map EvalResult.loss ++ [r0.loss]) := by
      rw [hsc, sinceLastImprove_append, h1, h2]
    have hbl' : (runEpoch o rank ls maxStop f (some d) epoch st).st.bestLog
        = bestLogSpec (R ++ [r0]) := by
      rw [hbl, bestLogSpec_append, h1, h3]
    rw [trainLoop] at hget ⊢
    by_cases hg : ((runEpoch o rank ls maxStop f (some d) epoch st).error.isSome
        || (runEpoch o rank ls maxStop f (some d) epoch st).broke) = true
    · rw [if_pos hg] at hget ⊢
      cases i with
      | zero =>
        simp only [List.getElem?_cons_zero, Option.some_inj] at hget
        subst hget
        refine ⟨r0, hr, herr0, ?_, ?_, ?_, ?_, ?_⟩
        · rw [List.take_succ_cons, List.take_zero, lossesOf_cons_some _ r0 _ hr,
            lossesOf_nil]
          exact hlc'
        · rw [List.take_succ_cons, List.take_zero, lossesOf_cons_some _ r0 _ hr,
            lossesOf_nil]
          exact hsc'
        · rw [List.take_succ_cons, List.take_zero, resultsOf_cons_some _ r0 _ hr,
            resultsOf_nil]
          exact hbl'
        · rw [List.take_zero, lossesOf_nil, List.append_nil, hsv, h1]
        · rw [List.take_succ_cons, List.take_zero, lossesOf_cons_some _ r0 _ hr,
            lossesOf_nil, hbr, hsc']
      | succ j => simp at hget
    · rw [if_neg hg] at hget ⊢
      cases i with
      | zero =>
        simp only [List.getElem?_cons_zero, Option.some_inj] at hget
        subst hget
        refine ⟨r0, hr, herr0, ?_, ?_, ?_, ?_, ?_⟩
        · rw [List.take_succ_cons, List.take_zero, lossesOf_cons_some _ r0 _ hr,
            lossesOf_nil]
          exact hlc'
        · rw [List.take_succ_cons, List.take_zero, lossesOf_cons_some _ r0 _ hr,
            lossesOf_nil]
          exact hsc'
        · rw [List.take_succ_cons, List.take_zero, resultsOf_cons_some _ r0 _ hr,
            resultsOf_nil]
          exact hbl'
        · rw [List.take_zero, lossesOf_nil, List.append_nil, hsv, h1]
        · rw [List.take_succ_cons, List.take_zero, lossesOf_cons_some _ r0 _ hr,
            lossesOf_nil, hbr, hsc']
      | succ j =>
        simp only [List.getElem?_cons_succ] at hget
        obtain ⟨r, hr2, herr2, hlc2, hsc2, hbl2, hsv2, hbr2⟩ :=
          ih (epoch + 1) (runEpoch o rank ls maxStop f (some d) epoch st).st (R ++ [r0])
            (by rw [hL]; exact hlc') (by rw [hL]; exact hsc') hbl' j eo hget
        have hfold : ∀ X : List ℚ,
            R.map EvalResult.loss ++ (r0.loss :: X)
              = (R ++ [r0]).map EvalResult.loss ++ X := by
          intro X; simp
        refine ⟨r, hr2, herr2, ?_, ?_, ?_, ?_, ?_⟩
        · rw [List.take_succ_cons, lossesOf_cons_some _ r0 _ hr, hfold]
          exact hlc2
        · rw [List.take_succ_cons, lossesOf_cons_some _ r0 _ hr, hfold]
          exact hsc2
        · rw [List.take_succ_cons, resultsOf_cons_some _ r0 _ hr, List.append_cons]
          exact hbl2
        · rw [List.take_succ_cons, lossesOf_cons_some _ r0 _ hr, hfold]
          exact hsv2
        · rw [List.take_succ_cons, lossesOf_cons_some _ r0 _ hr, hfold]
          exact hbr2

theorem trainLoop_broke_elem (o : Oracle P) (ls maxStop : Nat)
    (f : Nat → List RawBatch) (dev : Option (List RawBatch)) :
    ∀ (n epoch : Nat) (st : TrainState P) (eo : EpochOut P),
      eo ∈ trainLoop o 0 ls maxStop f dev n epoch st →
      eo.broke = true →
      eo.st.logOpen = false ∧ eo.error = none := by
  intro n
  induction n with
  | zero => intro epoch st eo h hb; simp [trainLoop] at h
  | succ n ih =>
    intro epoch st eo hmem hbroke
    rw [trainLoop] at hmem
    by_cases hg : ((runEpoch o 0 ls maxStop f dev epoch st).error.isSome
        || (runEpoch o 0 ls maxStop f dev epoch st).broke) = true
    · rw [if_pos hg] at hmem
      simp only [List.mem_singleton] at hmem
      subst hmem
      exact runEpoch_broke_logOpen o ls maxStop f dev epoch st hbroke
    · rw [if_neg hg] at hmem
      rcases List.mem_cons.1 hmem with hmem | hmem
      · subst hmem
        exact runEpoch_broke_logOpen o ls maxStop f dev epoch st hbroke
      · exact ih (epoch + 1) _ eo hmem hbroke

theorem train_parts (cfg : Config P) (o : Oracle P) (f : Nat → List RawBatch)
    (hcfg : cfg.trainDataset = some f) :
    (Trainer.train cfg o).epochs
        = trainLoop o cfg.rank cfg.loggingSteps cfg.maxStopNumber f cfg.devDataset
            cfg.numTrainEpochs 0 (initState cfg)
      ∧ (Trainer.train cfg o).earlyStopped
        = (((trainLoop o cfg.rank cfg.loggingSteps cfg.maxStopNumber f cfg.devDataset
            cfg.numTrainEpochs 0 (initState cfg)).getLast?).elim false EpochOut.broke)
      ∧ (Trainer.train cfg o).finalSt
        = (((trainLoop o cfg.rank cfg.loggingSteps cfg.maxStopNumber f cfg.devDataset
            cfg.numTrainEpochs 0 (initState cfg)).getLast?).elim (initState cfg)
            EpochOut.st)
      ∧ ((((trainLoop o cfg.rank cfg.loggingSteps cfg.maxStopNumber f cfg.devDataset
            cfg.numTrainEpochs 0 (initState cfg)).getLast?).bind EpochOut.error = none) →
          (Trainer.train cfg o).error
            = (finale cfg.rank
                (((trainLoop o cfg.rank cfg.loggingSteps cfg.maxStopNumber f
                  cfg.devDataset cfg.numTrainEpochs 0 (initState cfg)).getLast?).elim
                  (initState cfg) EpochOut.st)).2)
      ∧ (∀ e : Err, ((((trainLoop o cfg.rank cfg.loggingSteps cfg.maxStopNumber f
            cfg.devDataset cfg.numTrainEpochs 0 (initState cfg)).getLast?).bind
            EpochOut.error = some e) →
          (Trainer.train cfg o).error = some e)) := by
  unfold Trainer.train
  rw [hcfg]
  cases hE : ((trainLoop o cfg.rank cfg.loggingSteps cfg.maxStopNumber f cfg.devDataset
      cfg.numTrainEpochs 0 (initState cfg)).getLast?).bind EpochOut.error with
  | none => simp [hE]
  | some e => simp [hE]

theorem getElem?_some_mem {α : Type} {l : List α} {n : Nat} {a : α}
    (h : l[n]? = some a) : a ∈ l := by
  obtain ⟨hlt, he⟩ := List.getElem?_eq_some_iff.mp h
  exact he ▸ List.getElem_mem hlt

theorem trainLoop_elem_isEpoch (o : Oracle P) (rank ls maxStop : Nat)
    (f : Nat → List RawBatch) (dev : Option (List RawBatch)) :
    ∀ (n epoch : Nat) (st : TrainState P) (eo : EpochOut P),
      eo ∈ trainLoop o rank ls maxStop f dev n epoch st →
      ∃ (e' : Nat) (st' : TrainState P),
        eo = runEpoch o rank ls maxStop f dev e' st' := by
  intro n
  induction n with
  | zero => intro epoch st eo h; simp [trainLoop] at h
  | succ n ih =>
    intro epoch st eo hmem
    rw [trainLoop] at hmem
    by_cases hg : ((runEpoch o rank ls maxStop f dev epoch st).error.isSome
        || (runEpoch o rank ls maxStop f dev epoch st).broke) = true
    · rw [if_pos hg] at hmem
      simp only [List.mem_singleton] at hmem
      exact ⟨epoch, st, hmem⟩
    · rw [if_neg hg] at hmem
      rcases List.mem_cons.1 hmem with hmem | hmem
      · exact ⟨epoch, st, hmem⟩
      · exact ih (epoch + 1) _ eo hmem

theorem epochBS_count_other (o : Oracle P) (rank ls : Nat) (f : Nat → List RawBatch)
    (epoch : Nat) (st : TrainState P) (x : Ev) (hx : isTrainStepEv x = false) :
    (epochBS o rank ls f epoch st).events.count x = 0 := by
  unfold epochBS
  have h := (trainBatches_counts o epoch rank ls (f epoch).length (f epoch) 0
    { params := st.params, t := st.t, totalLoss := 0, batchLoss := 0, batchCounts := 0
      events := [] }).2.2 x hx
  simpa using h

theorem epochBS_count_optStep (o : Oracle P) (rank ls : Nat) (f : Nat → List RawBatch)
    (epoch : Nat) (st : TrainState P) :
    (epochBS o rank ls f epoch st).events.count Ev.optStep = (f epoch).length := by
  unfold epochBS
  have h := (trainBatches_counts o epoch rank ls (f epoch).length (f epoch) 0
    { params := st.params, t := st.t, totalLoss := 0, batchLoss := 0, batchCounts := 0
      events := [] }).1
  simpa using h

theorem epochBS_count_fwdTrue (o : Oracle P) (rank ls : Nat) (f : Nat → List RawBatch)
    (epoch : Nat) (st : TrainState P) :
    (epochBS o rank ls f epoch st).events.count (Ev.forwardPass true)
      = (f epoch).length := by
  unfold epochBS
  have h := (trainBatches_counts o epoch rank ls (f epoch).length (f epoch) 0
    { params := st.params, t := st.t, totalLoss := 0, batchLoss := 0, batchCounts := 0
      events := [] }).2.1
  simpa using h

theorem runEpoch_dev_save_counts (o : Oracle P) (rank ls maxStop : Nat)
    (f : Nat → List RawBatch) (d : List RawBatch) (epoch : Nat) (st : TrainState P)
    (hb : f epoch ≠ []) (hd : d ≠ []) :
    ((runEpoch o rank ls maxStop f (some d) epoch st).events.count Ev.saveModelWeights
        = if (runEpoch o rank ls maxStop f (some d) epoch st).saved = true
          then 1 else 0)
      ∧ ((runEpoch o rank ls maxStop f (some d) epoch st).events.count Ev.saveTokenizer
        = if (runEpoch o rank ls maxStop f (some d) epoch st).saved = true
          then 1 else 0)
      ∧ ((runEpoch o rank ls maxStop f (some d) epoch st).events.count
            Ev.saveTrainingArgs
        = if (runEpoch o rank ls maxStop f (some d) epoch st).saved = true
          then 1 else 0) := by
  have h1 := epochBS_count_other o rank ls f epoch st Ev.saveModelWeights rfl
  have h2 := epochBS_count_other o rank ls f epoch st Ev.saveTokenizer rfl
  have h3 := epochBS_count_other o rank ls f epoch st Ev.saveTrainingArgs rfl
  rw [runEpoch_dev_eq o rank ls maxStop f d epoch st hb hd]
  dsimp only
  rw [devBranch_events, evaluate_events]
  by_cases hr0 : rank = 0
  · subst hr0
    by_cases hs : (devBranch o 0 maxStop d (epochAvg o 0 ls f epoch st)
      (epochBS o 0 ls f epoch st).params (epochBS o 0 ls f epoch st).t st).saved
      = true <;>
      by_cases hbk : (devBranch o 0 maxStop d (epochAvg o 0 ls f epoch st)
        (epochBS o 0 ls f epoch st).params (epochBS o 0 ls f epoch st).t st).broke
        = true <;>
        simp [List.count_append, List.count_cons, List.count_replicate, rank0Print,
          timeEvs, saveModelEvs, hs, hbk, h1, h2, h3]
  · by_cases hs : (devBranch o rank maxStop d (epochAvg o rank ls f epoch st)
      (epochBS o rank ls f epoch st).params (epochBS o rank ls f epoch st).t st).saved
      = true <;>
      by_cases hbk : (devBranch o rank maxStop d (epochAvg o rank ls f epoch st)
        (epochBS o rank ls f epoch st).params (epochBS o rank ls f epoch st).t st).broke
        = true <;>
        simp [List.count_append, List.count_cons, List.count_replicate, rank0Print,
          timeEvs, saveModelEvs, hr0, hs, hbk, h1, h2, h3]

theorem runEpoch_nodev_obs (o : Oracle P) (rank ls maxStop : Nat)
    (f : Nat → List RawBatch) (epoch : Nat) (st : TrainState P) (hb : f epoch ≠ []) :
    (runEpoch o rank ls maxStop f none epoch st).broke = false
      ∧ (runEpoch o rank ls maxStop f none epoch st).error = none
      ∧ (runEpoch o rank ls maxStop f none epoch st).saved = true
      ∧ (runEpoch o rank ls maxStop f none epoch st).st.logOpen = st.logOpen
      ∧ (runEpoch o rank ls maxStop f none epoch st).events.count Ev.saveModelWeights = 1
      ∧ (runEpoch o rank ls maxStop f none epoch st).events.count Ev.saveTokenizer = 1
      ∧ (runEpoch o rank ls maxStop f none epoch st).events.count Ev.saveTrainingArgs
        = 1 := by
  have h1 := fun rk => epochBS_count_other o rk ls f epoch st Ev.saveModelWeights rfl
  have h2 := fun rk => epochBS_count_other o rk ls f epoch st Ev.saveTokenizer rfl
  have h3 := fun rk => epochBS_count_other o rk ls f epoch st Ev.saveTrainingArgs rfl
  rw [runEpoch_nodev_eq o rank ls maxStop f epoch st hb]
  refine ⟨rfl, rfl, rfl, rfl, ?_, ?_, ?_⟩ <;>
    by_cases hr0 : rank = 0 <;>
      simp [List.count_append, List.count_cons, rank0Print, timeEvs, saveModelEvs,
        hr0, h1 rank, h1 0, h2 rank, h2 0, h3 rank, h3 0]

theorem trainLoop_nodev_final_logOpen (o : Oracle P) (rank ls maxStop : Nat)
    (f : Nat → List RawBatch) (hf : ∀ e, f e ≠ []) :
    ∀ (n epoch : Nat) (st : TrainState P),
      (((trainLoop o rank ls maxStop f none n epoch st).getLast?).elim st
          EpochOut.st).logOpen = st.logOpen := by
  intro n
  induction n with
  | zero => intro epoch st; simp [trainLoop]
  | succ n ih =>
    intro epoch st
    rw [trainLoop]
    have hobs := runEpoch_nodev_obs o rank ls maxStop f epoch st (hf epoch)
    rw [if_neg (by simp [hobs.1, hobs.2.1])]
    cases n with
    | zero =>
      simp only [trainLoop, List.getLast?_singleton, Option.elim_some]
      exact hobs.2.2.2.1
    | succ m =>
      have hne := trainLoop_ne_nil o rank ls maxStop f none (m + 1) (epoch + 1)
        (runEpoch o rank ls maxStop f none epoch st).st (Nat.succ_pos m)
      obtain ⟨y, ys, hys⟩ := List.exists_cons_of_ne_nil hne
      have hgl := List.getLast?_eq_getLast_of_ne_nil
        (l := y :: ys) (by simp)
      have ih2 := ih (epoch + 1) (runEpoch o rank ls maxStop f none epoch st).st
      rw [hys, hgl] at ih2
      rw [hys, List.getLast?_cons_cons, hgl]
      simp only [Option.elim_some] at ih2 ⊢
      rw [ih2]
      exact hobs.2.2.2.1

theorem runEpoch_emptydev_eq (o : Oracle P) (rank ls maxStop : Nat)
    (f : Nat → List RawBatch) (epoch : Nat) (st : TrainState P)
    (hb : f epoch ≠ []) :
    runEpoch o rank ls maxStop f (some []) epoch st
      = runEpoch o rank ls maxStop f none epoch st := by
  have hb' := length_beq_zero_eq_false _ hb
  simp [runEpoch, hb']

theorem epochAvg_eq (o : Oracle P) (rank ls : Nat) (f : Nat → List RawBatch)
    (epoch : Nat) (st : TrainState P) :
    epochAvg o rank ls f epoch st
      = (batchLossSeq o (f epoch) st.params st.t).sum / ((f epoch).length : ℚ) := by
  unfold epochAvg epochBS
  rw [(trainBatches_state o epoch rank ls (f epoch).length (f epoch) 0
    { params := st.params, t := st.t, totalLoss := 0, batchLoss := 0, batchCounts := 0
      events := [] }).1]
  simp

theorem runEpoch_train_obs (o : Oracle P) (rank ls maxStop : Nat)
    (f : Nat → List RawBatch) (dev : Option (List RawBatch)) (epoch : Nat)
    (st : TrainState P) (hb : f epoch ≠ []) :
    (runEpoch o rank ls maxStop f dev epoch st).events.count Ev.optStep
        = (f epoch).length
      ∧ (runEpoch o rank ls maxStop f dev epoch st).events.count (Ev.forwardPass true)
        = (f epoch).length
      ∧ (runEpoch o rank ls maxStop f dev epoch st).trainLosses
        = batchLossSeq o (f epoch) st.params st.t
      ∧ (runEpoch o rank ls maxStop f dev epoch st).avgTrainLoss
        = (batchLossSeq o (f epoch) st.params st.t).sum / ((f epoch).length : ℚ) := by
  have hop := fun rk => epochBS_count_optStep o rk ls f epoch st
  have hft := fun rk => epochBS_count_fwdTrue o rk ls f epoch st
  have havg := fun rk => epochAvg_eq o rk ls f epoch st
  cases dev with
  | none =>
    rw [runEpoch_nodev_eq o rank ls maxStop f epoch st hb]
    refine ⟨?_, ?_, rfl, havg rank⟩ <;>
      by_cases hr0 : rank = 0 <;>
        simp [List.count_append, List.count_cons, rank0Print, timeEvs, saveModelEvs,
          hr0, hop rank, hop 0, hft rank, hft 0]
  | some d =>
    cases d with
    | nil =>
      rw [runEpoch_emptydev_eq o rank ls maxStop f epoch st hb,
        runEpoch_nodev_eq o rank ls maxStop f epoch st hb]
      refine ⟨?_, ?_, rfl, havg rank⟩ <;>
        by_cases hr0 : rank = 0 <;>
          simp [List.count_append, List.count_cons, rank0Print, timeEvs, saveModelEvs,
            hr0, hop rank, hop 0, hft rank, hft 0]
    | cons b0 d0 =>
      rw [runEpoch_dev_eq o rank ls maxStop f (b0 :: d0) epoch st hb
        (List.cons_ne_nil _ _)]
      refine ⟨?_, ?_, rfl, havg rank⟩ <;>
        · rw [devBranch_events, evaluate_events]
          by_cases hr0 : rank = 0
          · subst hr0
            by_cases hs : (devBranch o 0 maxStop (b0 :: d0)
                (epochAvg o 0 ls f epoch st) (epochBS o 0 ls f epoch st).params
                (epochBS o 0 ls f epoch st).t st).saved = true <;>
              by_cases hbk : (devBranch o 0 maxStop (b0 :: d0)
                (epochAvg o 0 ls f epoch st) (epochBS o 0 ls f epoch st).params
                (epochBS o 0 ls f epoch st).t st).broke = true <;>
                simp [List.count_append, List.count_cons, List.count_replicate,
                  rank0Print, timeEvs, saveModelEvs, hs, hbk, hop 0, hft 0]
          · by_cases hs : (devBranch o rank maxStop (b0 :: d0)
                (epochAvg o rank ls f epoch st) (epochBS o rank ls f epoch st).params
                (epochBS o rank ls f epoch st).t st).saved = true <;>
              by_cases hbk : (devBranch o rank maxStop (b0 :: d0)
                (epochAvg o rank ls f epoch st) (epochBS o rank ls f epoch st).params
                (epochBS o rank ls f epoch st).t st).broke = true <;>
                simp [List.count_append, List.count_cons, List.count_replicate,
                  rank0Print, timeEvs, saveModelEvs, hr0, hs, hbk, hop rank, hft rank]

theorem runEpoch_dev_eval_trace (o : Oracle P) (rank ls maxStop : Nat)
    (f : Nat → List RawBatch) (d : List RawBatch) (epoch : Nat) (st : TrainState P)
    (hb : f epoch ≠ []) (hd : d ≠ []) :
    (runEpoch o rank ls maxStop f (some d) epoch st).events.count Ev.setEvalMode = 1
      ∧ ∃ A B : List Ev,
          (runEpoch o rank ls maxStop f (some d) epoch st).events
              = A ++ Ev.setEvalMode :: B
            ∧ A.count Ev.optStep = (f epoch).length
            ∧ B.count Ev.optStep = 0
            ∧ A.count Ev.setEvalMode = 0
            ∧ B.count Ev.setEvalMode = 0 := by
  have hop := epochBS_count_optStep o rank ls f epoch st
  have hse := epochBS_count_other o rank ls f epoch st Ev.setEvalMode rfl
  have hsplit : ∃ A B : List Ev,
      (runEpoch o rank ls maxStop f (some d) epoch st).events
          = A ++ Ev.setEvalMode :: B
        ∧ A.count Ev.optStep = (f epoch).length
        ∧ B.count Ev.optStep = 0
        ∧ A.count Ev.setEvalMode = 0
        ∧ B.count Ev.setEvalMode = 0 := by
    rw [runEpoch_dev_eq o rank ls maxStop f d epoch st hb hd]
    dsimp only
    rw [devBranch_events, evaluate_events]
    refine ⟨(Ev.setTrainMode :: rank0Print rank LogMsg.header)
        ++ (epochBS o rank ls f epoch st).events ++ rank0Print rank LogMsg.sepLine,
      List.replicate d.length (Ev.forwardPass false)
        ++ rank0Print rank (LogMsg.evalLine
            (devBranch o rank maxStop d (epochAvg o rank ls f epoch st)
              (epochBS o rank ls f epoch st).params
              (epochBS o rank ls f epoch st).t st).result)
        ++ (if (devBranch o rank maxStop d (epochAvg o rank ls f epoch st)
              (epochBS o rank ls f epoch st).params
              (epochBS o rank ls f epoch st).t st).saved = true
            then saveModelEvs else [])
        ++ (if (devBranch o rank maxStop d (epochAvg o rank ls f epoch st)
              (epochBS o rank ls f epoch st).params
              (epochBS o rank ls f epoch st).t st).broke = true then
              (if rank == 0 then
                [Ev.stdout LogMsg.earlyStopLine, Ev.logWrite LogMsg.earlyStopLine,
                  Ev.logClose]
               else [])
            else [])
        ++ (if (devBranch o rank maxStop d (epochAvg o rank ls f epoch st)
              (epochBS o rank ls f epoch st).params
              (epochBS o rank ls f epoch st).t st).broke = true
            then [] else timeEvs rank), ?_, ?_, ?_, ?_, ?_⟩
    · simp only [List.append_assoc, List.cons_append]
    · rcases Bool.eq_false_or_eq_true (rank == 0) with hrb | hrb <;>
        simp [List.count_append, List.count_cons, rank0Print, hrb, hop]
    · rcases Bool.eq_false_or_eq_true (rank == 0) with hrb | hrb <;>
        by_cases hs : (devBranch o rank maxStop d (epochAvg o rank ls f epoch st)
          (epochBS o rank ls f epoch st).params
          (epochBS o rank ls f epoch st).t st).saved = true <;>
          by_cases hbk : (devBranch o rank maxStop d (epochAvg o rank ls f epoch st)
            (epochBS o rank ls f epoch st).params
            (epochBS o rank ls f epoch st).t st).broke = true <;>
            simp [List.count_append, List.count_cons, List.count_replicate, rank0Print,
              timeEvs, saveModelEvs, hrb, hs, hbk]
    · rcases Bool.eq_false_or_eq_true (rank == 0) with hrb | hrb <;>
        simp [List.count_append, List.count_cons, rank0Print, hrb, hse]
    · rcases Bool.eq_false_or_eq_true (rank == 0) with hrb | hrb <;>
        by_cases hs : (devBranch o rank maxStop d (epochAvg o rank ls f epoch st)
          (epochBS o rank ls f epoch st).params
          (epochBS o rank ls f epoch st).t st).saved = true <;>
          by_cases hbk : (devBranch o rank maxStop d (epochAvg o rank ls f epoch st)
            (epochBS o rank ls f epoch st).params
            (epochBS o rank ls f epoch st).t st).broke = true <;>
            simp [List.count_append, List.count_cons, List.count_replicate, rank0Print,
              timeEvs, saveModelEvs, hrb, hs, hbk]
  obtain ⟨A, B, heq, h1, h2, h3, h4⟩ := hsplit
  refine ⟨?_, A, B, heq, h1, h2, h3, h4⟩
  rw [heq]
  simp [List.count_append, List.count_cons, h3, h4]

theorem runEpoch_dev_result_loss (o : Oracle P) (rank ls maxStop : Nat)
    (f : Nat → List RawBatch) (d : List RawBatch) (epoch : Nat) (st : TrainState P)
    (hb : f epoch ≠ []) (hd : d ≠ []) :
    ∃ (p : P) (t : Nat) (r : EvalResult),
      (runEpoch o rank ls maxStop f (some d) epoch st).evalCall = some (p, t)
        ∧ (runEpoch o rank ls maxStop f (some d) epoch st).result = some r
        ∧ r.loss = ((List.range d.length).map
            (fun j => batchMaskedLoss o p (t + j) (d.getD j ⟨[], []⟩))).sum
            / (d.length : ℚ) := by
  rw [runEpoch_dev_eq o rank ls maxStop f d epoch st hb hd]
  refine ⟨(epochBS o rank ls f epoch st).params, (epochBS o rank ls f epoch st).t,
    _, rfl, rfl, ?_⟩
  have h1 := (devBranch_spec o rank maxStop d (epochAvg o rank ls f epoch st)
    (epochBS o rank ls f epoch st).params (epochBS o rank ls f epoch st).t st).1
  rw [h1]
  simpa using evaluate_loss o (epochBS o rank ls f epoch st).params d
    (epochBS o rank ls f epoch st).t

/-! ### The claims -/

/-- C1: In both the training step and the evaluation step, the cross-entropy
loss is computed only over token positions whose label is not -100 (the
dynamically masked positions): the logits and labels passed to the loss
function (`batchMaskedLoss`, the body shared by lines 88–99 of `train` and
170–182 of `evaluate`) are exactly those at positions where the label tensor
differs from -100. -/
theorem loss_only_unmasked (o : Oracle P) (params : P) (t : Nat) (b : RawBatch)
    (h : (o.forward params (o.maskTokens t b).1 b.attn).length
          = (o.maskTokens t b).2.length) :
    batchMaskedLoss o params t b
      = o.lossFn
          ((((o.forward params (o.maskTokens t b).1 b.attn).zip
              (o.maskTokens t b).2).filter
              (fun p => decide (p.2 ≠ -100))).map Prod.fst)
          ((((o.forward params (o.maskTokens t b).1 b.attn).zip
              (o.maskTokens t b).2).filter
              (fun p => decide (p.2 ≠ -100))).map Prod.snd) := by
  simp only [batchMaskedLoss, maskedLoss, selLogits, selLabels]
  rw [maskedSelect_lossMask_zip _ _ h, maskedSelect_lossMask_zip_snd _ _ h]

theorem loss_only_unmasked_witness :
    ((tOracle.forward () (tOracle.maskTokens 3 wBatch).1 wBatch.attn).length
        = (tOracle.maskTokens 3 wBatch).2.length)
      ∧ batchMaskedLoss tOracle () 3 wBatch
        = tOracle.lossFn
            ((((tOracle.forward () (tOracle.maskTokens 3 wBatch).1 wBatch.attn).zip
                (tOracle.maskTokens 3 wBatch).2).filter
                (fun p => decide (p.2 ≠ -100))).map Prod.fst)
            ((((tOracle.forward () (tOracle.maskTokens 3 wBatch).1 wBatch.attn).zip
                (tOracle.maskTokens 3 wBatch).2).filter
                (fun p => decide (p.2 ≠ -100))).map Prod.snd) :=
  ⟨rfl, loss_only_unmasked tOracle () 3 wBatch rfl⟩

/-- C8: Calling `train` with `train_dataset` equal to `None` raises the
exception of line 41 before any side effect: the event trace is empty, so no
run directory is created and no log or parameter file is written. -/
theorem train_none_raises (cfg : Config P) (o : Oracle P)
    (h : cfg.trainDataset = none) :
    (Trainer.train cfg o).error = some Err.noTrainData
      ∧ (Trainer.train cfg o).events = [] := by
  unfold Trainer.train
  rw [h]
  exact ⟨rfl, rfl⟩

theorem train_none_raises_witness :
    noneCfg.trainDataset = none
      ∧ ((Trainer.train noneCfg tOracle).error = some Err.noTrainData
          ∧ (Trainer.train noneCfg tOracle).events = []) :=
  ⟨rfl, train_none_raises noneCfg tOracle rfl⟩

/-- C9: `evaluate` leaves the model parameters unchanged for every input: its
event trace contains no backward pass and no optimizer step, every forward
pass in it runs with gradient tracking disabled (`torch.no_grad()`), and
running the trace through the model-state simulation changes nothing but the
mode, which is switched to evaluation mode (`model.eval()`). -/
theorem evaluate_frame (o : Oracle P) (params : P) (dev : List RawBatch) (t : Nat)
    (s : ModelSim P) :
    simRun o s (Trainer.evaluate o params dev t).events
        = { params := s.params, pending := s.pending, mode := Mode.evalMode }
      ∧ (∀ l : ℚ, Ev.backwardPass l ∉ (Trainer.evaluate o params dev t).events)
      ∧ Ev.optStep ∉ (Trainer.evaluate o params dev t).events
      ∧ (∀ g : Bool,
          Ev.forwardPass g ∈ (Trainer.evaluate o params dev t).events → g = false) := by
  rw [evaluate_events]
  refine ⟨?_, ?_, ?_, ?_⟩
  · have h2 := simRun_replicate_forward o
      ({ params := s.params, pending := s.pending, mode := Mode.evalMode } : ModelSim P)
      dev.length
    simpa [simRun, simStep] using h2
  · intro l hmem
    rcases List.mem_cons.1 hmem with h | h
    · simp at h
    · exact absurd (List.eq_of_mem_replicate h) (by simp)
  · intro hmem
    rcases List.mem_cons.1 hmem with h | h
    · simp at h
    · exact absurd (List.eq_of_mem_replicate h) (by simp)
  · intro g hmem
    rcases List.mem_cons.1 hmem with h | h
    · simp at h
    · have := List.eq_of_mem_replicate h
      simpa using this

/-- C4 (refuting theorem — code bug): on rank 0, whenever early stopping
triggers, `train` does not complete normally.  The `break` path closes the log
(line 146), and the unconditional summary block then executes
`print("MODEL TRAINING END", file=log)` on the closed file (line 159), which
raises `ValueError`; the best validation result is never written and the run
ends in an exception instead of a normal return. -/
theorem early_stop_rank0_crashes (cfg : Config P) (o : Oracle P)
    (hrank : cfg.rank = 0)
    (hstop : (Trainer.train cfg o).earlyStopped = true) :
    (Trainer.train cfg o).error = some Err.writeToClosedLog := by
  cases hds : cfg.trainDataset with
  | none =>
    have hfalse : (Trainer.train cfg o).earlyStopped = false := by
      unfold Trainer.train
      rw [hds]
    rw [hfalse] at hstop
    exact absurd hstop (by simp)
  | some f =>
    obtain ⟨heps, hes, hfs, herrnone, _⟩ := train_parts cfg o f hds
    rw [hrank] at hes hfs herrnone
    rw [hes] at hstop
    cases hlast : (trainLoop o 0 cfg.loggingSteps cfg.maxStopNumber f cfg.devDataset
        cfg.numTrainEpochs 0 (initState cfg)).getLast? with
    | none =>
      rw [hlast] at hstop
      exact absurd hstop (by simp)
    | some eo =>
      rw [hlast] at hstop
      simp only [Option.elim_some] at hstop
      have hmemopt : eo ∈ (trainLoop o 0 cfg.loggingSteps cfg.maxStopNumber f
          cfg.devDataset cfg.numTrainEpochs 0 (initState cfg)).getLast? := by
        rw [hlast]; rfl
      obtain ⟨hne, heq⟩ := List.mem_getLast?_eq_getLast hmemopt
      have hmem : eo ∈ trainLoop o 0 cfg.loggingSteps cfg.maxStopNumber f
          cfg.devDataset cfg.numTrainEpochs 0 (initState cfg) := by
        rw [heq]; exact List.getLast_mem hne
      obtain ⟨hlo, herr⟩ := trainLoop_broke_elem o cfg.loggingSteps cfg.maxStopNumber f
        cfg.devDataset cfg.numTrainEpochs 0 (initState cfg) eo hmem hstop
      have herr2 := herrnone (by rw [hlast]; simpa using herr)
      rw [herr2, hlast]
      simp [finale, hlo]

theorem early_stop_rank0_crashes_witness :
    tCfg.rank = 0
      ∧ (Trainer.train tCfg tOracle).earlyStopped = true
      ∧ (Trainer.train tCfg tOracle).error = some Err.writeToClosedLog := by
  have hstop : (Trainer.train tCfg tOracle).earlyStopped = true := by
    simp [Trainer.train, trainLoop, runEpoch, epochBS, epochAvg, trainBatches,
      batchMaskedLoss, devBranch, Trainer.evaluate, evalBatches, npMean, maskedLoss,
      selLogits, selLabels, lossMask, maskedSelect, tOracle, tCfg, wLoader, wBatch,
      initState, batchLossSeq, round4, logCond, rank0Print, saveModelEvs, timeEvs,
      finale]
  exact ⟨rfl, hstop, early_stop_rank0_crashes tCfg tOracle rfl hstop⟩

/-- C10: Throughout training with a (nonempty) dev dataset, the invariant
holds at the end of every completed epoch: `loss_check` equals the minimum of
10000 and all validation losses observed so far, `stop_count` equals the
number of consecutive completed epochs since the last strict improvement of
that minimum, and `best_log` is the evaluation result of the epoch that
achieved the current minimum (or `None` if none did). -/
theorem loop_state_invariant (cfg : Config P) (o : Oracle P)
    (f : Nat → List RawBatch) (d : List RawBatch)
    (hds : cfg.trainDataset = some f) (hf : ∀ e, f e ≠ [])
    (hdev : cfg.devDataset = some d) (hd : d ≠ []) :
    ∀ (i : Nat) (eo : EpochOut P), (Trainer.train cfg o).epochs[i]? = some eo →
      eo.st.lossCheck
        = runMin (lossesOf ((Trainer.train cfg o).epochs.take (i + 1)))
      ∧ eo.st.stopCount
        = sinceLastImprove (lossesOf ((Trainer.train cfg o).epochs.take (i + 1)))
      ∧ eo.st.bestLog
        = bestLogSpec (resultsOf ((Trainer.train cfg o).epochs.take (i + 1))) := by
  have heps : (Trainer.train cfg o).epochs
      = trainLoop o cfg.rank cfg.loggingSteps cfg.maxStopNumber f (some d)
          cfg.numTrainEpochs 0 (initState cfg) := by
    rw [(train_parts cfg o f hds).1, hdev]
  intro i eo hi
  rw [heps] at hi ⊢
  obtain ⟨r, _, _, h3, h4, h5, _, _⟩ := trainLoop_dev_inv o cfg.rank cfg.loggingSteps
    cfg.maxStopNumber f d hf hd cfg.numTrainEpochs 0 (initState cfg) [] rfl rfl rfl
    i eo hi
  refine ⟨?_, ?_, ?_⟩
  · simpa using h3
  · simpa using h4
  · simpa using h5

theorem loop_state_invariant_witness :
    tCfg.trainDataset = some wLoader
      ∧ (∀ e : Nat, wLoader e ≠ [])
      ∧ tCfg.devDataset = some [wBatch]
      ∧ ([wBatch] : List RawBatch) ≠ []
      ∧ ∀ (i : Nat) (eo : EpochOut Unit),
          (Trainer.train tCfg tOracle).epochs[i]? = some eo →
          eo.st.lossCheck
            = runMin (lossesOf ((Trainer.train tCfg tOracle).epochs.take (i + 1)))
          ∧ eo.st.stopCount
            = sinceLastImprove
                (lossesOf ((Trainer.train tCfg tOracle).epochs.take (i + 1)))
          ∧ eo.st.bestLog
            = bestLogSpec (resultsOf ((Trainer.train tCfg tOracle).epochs.take (i + 1))) :=
  ⟨rfl, fun _ => List.cons_ne_nil _ _, rfl, List.cons_ne_nil _ _,
    loop_state_invariant tCfg tOracle wLoader [wBatch] rfl
      (fun _ => List.cons_ne_nil _ _) rfl (List.cons_ne_nil _ _)⟩

/-- C2: With a (nonempty) dev dataset, the early-stopping dynamics are: after
every completed epoch, `stop_count` equals the number of consecutive epochs
since the last strict improvement of the running minimum of validation losses
(a strict improvement resets it to zero, a non-improving epoch — including one
whose loss ties the best so far — increments it); the epoch loop breaks
exactly when that counter reaches `max_stop_number`, and it breaks at the
first epoch where this happens; when early stopping never fires, all
`num_train_epochs` epochs run, and the loop never runs more than
`num_train_epochs` epochs. -/
theorem early_stopping_behavior (cfg : Config P) (o : Oracle P)
    (f : Nat → List RawBatch) (d : List RawBatch)
    (hds : cfg.trainDataset = some f) (hf : ∀ e, f e ≠ [])
    (hdev : cfg.devDataset = some d) (hd : d ≠ []) :
    (∀ (i : Nat) (eo : EpochOut P), (Trainer.train cfg o).epochs[i]? = some eo →
        eo.st.stopCount
          = sinceLastImprove (lossesOf ((Trainer.train cfg o).epochs.take (i + 1))))
      ∧ ((Trainer.train cfg o).earlyStopped = true
          ↔ ∃ (i : Nat) (eo : EpochOut P),
              (Trainer.train cfg o).epochs[i]? = some eo
                ∧ cfg.maxStopNumber ≤ sinceLastImprove
                    (lossesOf ((Trainer.train cfg o).epochs.take (i + 1))))
      ∧ (∀ (i : Nat) (eo : EpochOut P),
          (Trainer.train cfg o).epochs[i + 1]? = some eo →
          sinceLastImprove (lossesOf ((Trainer.train cfg o).epochs.take (i + 1)))
            < cfg.maxStopNumber)
      ∧ ((Trainer.train cfg o).earlyStopped = false →
          (Trainer.train cfg o).epochsRun = cfg.numTrainEpochs)
      ∧ (Trainer.train cfg o).epochsRun ≤ cfg.numTrainEpochs := by
  have heps : (Trainer.train cfg o).epochs
      = trainLoop o cfg.rank cfg.loggingSteps cfg.maxStopNumber f (some d)
          cfg.numTrainEpochs 0 (initState cfg) := by
    rw [(train_parts cfg o f hds).1, hdev]
  have hes : (Trainer.train cfg o).earlyStopped
      = ((trainLoop o cfg.rank cfg.loggingSteps cfg.maxStopNumber f (some d)
          cfg.numTrainEpochs 0 (initState cfg)).getLast?).elim false EpochOut.broke := by
    rw [(train_parts cfg o f hds).2.1, hdev]
  have herr : ∀ (epoch : Nat) (st : TrainState P),
      (runEpoch o cfg.rank cfg.loggingSteps cfg.maxStopNumber f (some d)
        epoch st).error = none := by
    intro epoch st
    rw [runEpoch_dev_eq o cfg.rank cfg.loggingSteps cfg.maxStopNumber f d epoch st
      (hf epoch) hd]
  have hmaster := trainLoop_dev_inv o cfg.rank cfg.loggingSteps cfg.maxStopNumber f d
    hf hd cfg.numTrainEpochs 0 (initState cfg) [] rfl rfl rfl
  simp only [Outcome.epochsRun, heps, hes]
  refine ⟨?_, ?_, ?_, ?_, ?_⟩
  · intro i eo hi
    obtain ⟨r, _, _, _, h4, _, _, _⟩ := hmaster i eo hi
    simpa using h4
  · constructor
    · intro hstop
      cases hlast : (trainLoop o cfg.rank cfg.loggingSteps cfg.maxStopNumber f (some d)
          cfg.numTrainEpochs 0 (initState cfg)).getLast? with
      | none => rw [hlast] at hstop; simp at hstop
      | some eo =>
        rw [hlast] at hstop
        simp only [Option.elim_some] at hstop
        have hget : (trainLoop o cfg.rank cfg.loggingSteps cfg.maxStopNumber f (some d)
            cfg.numTrainEpochs 0 (initState cfg))[(trainLoop o cfg.rank cfg.loggingSteps
            cfg.maxStopNumber f (some d) cfg.numTrainEpochs 0
            (initState cfg)).length - 1]? = some eo := by
          rw [← List.getLast?_eq_getElem?]
          exact hlast
        obtain ⟨r, _, _, _, _, _, _, hbroke⟩ := hmaster _ eo hget
        refine ⟨_, eo, hget, ?_⟩
        rw [hbroke] at hstop
        simpa using of_decide_eq_true hstop
    · rintro ⟨i, eo, hi, hge⟩
      cases h2 : (trainLoop o cfg.rank cfg.loggingSteps cfg.maxStopNumber f (some d)
          cfg.numTrainEpochs 0 (initState cfg))[i + 1]? with
      | some eo' =>
        have hnb := (trainLoop_not_last o cfg.rank cfg.loggingSteps cfg.maxStopNumber f
          (some d) cfg.numTrainEpochs 0 (initState cfg) i eo eo' hi h2).1
        obtain ⟨r, _, _, _, _, _, _, hbroke⟩ := hmaster i eo hi
        rw [hnb] at hbroke
        have := of_decide_eq_false hbroke.symm
        simp at this
        exact absurd hge (by omega)
      | none =>
        have hlen1 : i < (trainLoop o cfg.rank cfg.loggingSteps cfg.maxStopNumber f
            (some d) cfg.numTrainEpochs 0 (initState cfg)).length :=
          (List.getElem?_eq_some_iff.mp hi).1
        have hlen2 : (trainLoop o cfg.rank cfg.loggingSteps cfg.maxStopNumber f (some d)
            cfg.numTrainEpochs 0 (initState cfg)).length ≤ i + 1 := by
          simpa using List.getElem?_eq_none_iff.mp h2
        have hlast : (trainLoop o cfg.rank cfg.loggingSteps cfg.maxStopNumber f (some d)
            cfg.numTrainEpochs 0 (initState cfg)).getLast? = some eo := by
          rw [List.getLast?_eq_getElem?]
          have : (trainLoop o cfg.rank cfg.loggingSteps cfg.maxStopNumber f (some d)
              cfg.numTrainEpochs 0 (initState cfg)).length - 1 = i := by omega
          rw [this]
          exact hi
        rw [hlast]
        simp only [Option.elim_some]
        obtain ⟨r, _, _, _, _, _, _, hbroke⟩ := hmaster i eo hi
        rw [hbroke]
        simpa using hge
  · intro i eo' h2
    have hlen1 : i + 1 < (trainLoop o cfg.rank cfg.loggingSteps cfg.maxStopNumber f
        (some d) cfg.numTrainEpochs 0 (initState cfg)).length :=
      (List.getElem?_eq_some_iff.mp h2).1
    obtain ⟨eo0, hi⟩ : ∃ eo0 : EpochOut P,
        (trainLoop o cfg.rank cfg.loggingSteps cfg.maxStopNumber f (some d)
          cfg.numTrainEpochs 0 (initState cfg))[i]? = some eo0 :=
      ⟨_, List.getElem?_eq_getElem (by omega)⟩
    have hnb := (trainLoop_not_last o cfg.rank cfg.loggingSteps cfg.maxStopNumber f
      (some d) cfg.numTrainEpochs 0 (initState cfg) i eo0 eo' hi h2).1
    obtain ⟨r, _, _, _, _, _, _, hbroke⟩ := hmaster i eo0 hi
    rw [hnb] at hbroke
    have := of_decide_eq_false hbroke.symm
    simp at this
    omega
  · intro hnstop
    exact trainLoop_full_of_no_stop o cfg.rank cfg.loggingSteps cfg.maxStopNumber f
      (some d) herr cfg.numTrainEpochs 0 (initState cfg) hnstop
  · exact trainLoop_length_le o cfg.rank cfg.loggingSteps cfg.maxStopNumber f (some d)
      cfg.numTrainEpochs 0 (initState cfg)

theorem early_stopping_behavior_witness :
    tCfg.trainDataset = some wLoader
      ∧ (∀ e : Nat, wLoader e ≠ [])
      ∧ tCfg.devDataset = some [wBatch]
      ∧ ([wBatch] : List RawBatch) ≠ []
      ∧ ((∀ (i : Nat) (eo : EpochOut Unit),
            (Trainer.train tCfg tOracle).epochs[i]? = some eo →
            eo.st.stopCount = sinceLastImprove
              (lossesOf ((Trainer.train tCfg tOracle).epochs.take (i + 1))))
        ∧ ((Trainer.train tCfg tOracle).earlyStopped = true
            ↔ ∃ (i : Nat) (eo : EpochOut Unit),
                (Trainer.train tCfg tOracle).epochs[i]? = some eo
                  ∧ tCfg.maxStopNumber ≤ sinceLastImprove
                      (lossesOf ((Trainer.train tCfg tOracle).epochs.take (i + 1))))
        ∧ (∀ (i : Nat) (eo : EpochOut Unit),
            (Trainer.train tCfg tOracle).epochs[i + 1]? = some eo →
            sinceLastImprove
                (lossesOf ((Trainer.train tCfg tOracle).epochs.take (i + 1)))
              < tCfg.maxStopNumber)
        ∧ ((Trainer.train tCfg tOracle).earlyStopped = false →
            (Trainer.train tCfg tOracle).epochsRun = tCfg.numTrainEpochs)
        ∧ (Trainer.train tCfg tOracle).epochsRun ≤ tCfg.numTrainEpochs) :=
  ⟨rfl, fun _ => List.cons_ne_nil _ _, rfl, List.cons_ne_nil _ _,
    early_stopping_behavior tCfg tOracle wLoader [wBatch] rfl
      (fun _ => List.cons_ne_nil _ _) rfl (List.cons_ne_nil _ _)⟩

/-- C3: With a (nonempty) dev dataset, a model checkpoint is saved at the end
of an epoch if and only if that epoch's validation loss is strictly less than
every previous epoch's validation loss and strictly less than the initial
threshold 10000; saving writes the model weights, the tokenizer, and the
training arguments into the run directory (each exactly once for a saving
epoch, and not at all otherwise). -/
theorem checkpoint_iff_strict_improvement (cfg : Config P) (o : Oracle P)
    (f : Nat → List RawBatch) (d : List RawBatch)
    (hds : cfg.trainDataset = some f) (hf : ∀ e, f e ≠ [])
    (hdev : cfg.devDataset = some d) (hd : d ≠ []) :
    ∀ (i : Nat) (eo : EpochOut P), (Trainer.train cfg o).epochs[i]? = some eo →
      ∃ r : EvalResult,
        eo.result = some r
          ∧ (eo.saved = true
              ↔ r.loss < 10000
                ∧ ∀ l ∈ lossesOf ((Trainer.train cfg o).epochs.take i), r.loss < l)
          ∧ eo.events.count Ev.saveModelWeights = (if eo.saved = true then 1 else 0)
          ∧ eo.events.count Ev.saveTokenizer = (if eo.saved = true then 1 else 0)
          ∧ eo.events.count Ev.saveTrainingArgs = (if eo.saved = true then 1 else 0) := by
  have heps : (Trainer.train cfg o).epochs
      = trainLoop o cfg.rank cfg.loggingSteps cfg.maxStopNumber f (some d)
          cfg.numTrainEpochs 0 (initState cfg) := by
    rw [(train_parts cfg o f hds).1, hdev]
  intro i eo hi
  rw [heps] at hi ⊢
  obtain ⟨r, hr, _, _, _, _, hsv, _⟩ := trainLoop_dev_inv o cfg.rank cfg.loggingSteps
    cfg.maxStopNumber f d hf hd cfg.numTrainEpochs 0 (initState cfg) [] rfl rfl rfl
    i eo hi
  obtain ⟨e', st', heo⟩ := trainLoop_elem_isEpoch o cfg.rank cfg.loggingSteps
    cfg.maxStopNumber f (some d) cfg.numTrainEpochs 0 (initState cfg) eo
    (getElem?_some_mem hi)
  obtain ⟨hc1, hc2, hc3⟩ := runEpoch_dev_save_counts o cfg.rank cfg.loggingSteps
    cfg.maxStopNumber f d e' st' (hf e') hd
  refine ⟨r, hr, ?_, ?_, ?_, ?_⟩
  · rw [hsv]
    have hnorm : List.map EvalResult.loss []
        ++ lossesOf ((trainLoop o cfg.rank cfg.loggingSteps cfg.maxStopNumber f (some d)
            cfg.numTrainEpochs 0 (initState cfg)).take i)
        = lossesOf ((trainLoop o cfg.rank cfg.loggingSteps cfg.maxStopNumber f (some d)
            cfg.numTrainEpochs 0 (initState cfg)).take i) := by
      simp
    rw [hnorm]
    simp only [decide_eq_true_eq]
    exact lt_runMin_iff r.loss _
  · rw [heo]; exact hc1
  · rw [heo]; exact hc2
  · rw [heo]; exact hc3

theorem checkpoint_iff_strict_improvement_witness :
    tCfg.trainDataset = some wLoader
      ∧ (∀ e : Nat, wLoader e ≠ [])
      ∧ tCfg.devDataset = some [wBatch]
      ∧ ([wBatch] : List RawBatch) ≠ []
      ∧ ∀ (i : Nat) (eo : EpochOut Unit),
          (Trainer.train tCfg tOracle).epochs[i]? = some eo →
          ∃ r : EvalResult,
            eo.result = some r
              ∧ (eo.saved = true
                  ↔ r.loss < 10000
                    ∧ ∀ l ∈ lossesOf ((Trainer.train tCfg tOracle).epochs.take i),
                        r.loss < l)
              ∧ eo.events.count Ev.saveModelWeights
                = (if eo.saved = true then 1 else 0)
              ∧ eo.events.count Ev.saveTokenizer = (if eo.saved = true then 1 else 0)
              ∧ eo.events.count Ev.saveTrainingArgs
                = (if eo.saved = true then 1 else 0) :=
  ⟨rfl, fun _ => List.cons_ne_nil _ _, rfl, List.cons_ne_nil _ _,
    checkpoint_iff_strict_improvement tCfg tOracle wLoader [wBatch] rfl
      (fun _ => List.cons_ne_nil _ _) rfl (List.cons_ne_nil _ _)⟩

/-- C6: When no dev dataset is provided, early stopping never occurs: training
runs the full `num_train_epochs` epochs, the run completes without raising,
and a model checkpoint (weights, tokenizer, training arguments) is saved after
every epoch. -/
theorem no_dev_full_epochs (cfg : Config P) (o : Oracle P) (f : Nat → List RawBatch)
    (hds : cfg.trainDataset = some f) (hf : ∀ e, f e ≠ [])
    (hnd : cfg.devDataset = none) :
    (Trainer.train cfg o).earlyStopped = false
      ∧ (Trainer.train cfg o).epochsRun = cfg.numTrainEpochs
      ∧ (Trainer.train cfg o).error = none
      ∧ ∀ (i : Nat) (eo : EpochOut P), (Trainer.train cfg o).epochs[i]? = some eo →
          eo.broke = false ∧ eo.saved = true
            ∧ eo.events.count Ev.saveModelWeights = 1
            ∧ eo.events.count Ev.saveTokenizer = 1
            ∧ eo.events.count Ev.saveTrainingArgs = 1 := by
  obtain ⟨heps0, hes0, hfs0, herrnone, _⟩ := train_parts cfg o f hds
  rw [hnd] at heps0 hes0 hfs0 herrnone
  have helem : ∀ eo : EpochOut P,
      eo ∈ trainLoop o cfg.rank cfg.loggingSteps cfg.maxStopNumber f none
        cfg.numTrainEpochs 0 (initState cfg) →
      eo.broke = false ∧ eo.error = none ∧ eo.saved = true
        ∧ eo.events.count Ev.saveModelWeights = 1
        ∧ eo.events.count Ev.saveTokenizer = 1
        ∧ eo.events.count Ev.saveTrainingArgs = 1 := by
    intro eo hmem
    obtain ⟨e', st', heo⟩ := trainLoop_elem_isEpoch o cfg.rank cfg.loggingSteps
      cfg.maxStopNumber f none cfg.numTrainEpochs 0 (initState cfg) eo hmem
    obtain ⟨a, b, c, _, d1, d2, d3⟩ := runEpoch_nodev_obs o cfg.rank cfg.loggingSteps
      cfg.maxStopNumber f e' st' (hf e')
    rw [heo]
    exact ⟨a, b, c, d1, d2, d3⟩
  have hlastbroke : (((trainLoop o cfg.rank cfg.loggingSteps cfg.maxStopNumber f none
      cfg.numTrainEpochs 0 (initState cfg)).getLast?).elim false EpochOut.broke)
      = false := by
    cases hlast : (trainLoop o cfg.rank cfg.loggingSteps cfg.maxStopNumber f none
        cfg.numTrainEpochs 0 (initState cfg)).getLast? with
    | none => simp
    | some eo =>
      have hmemopt : eo ∈ (trainLoop o cfg.rank cfg.loggingSteps cfg.maxStopNumber f
          none cfg.numTrainEpochs 0 (initState cfg)).getLast? := by
        rw [hlast]; rfl
      obtain ⟨hne, heq⟩ := List.mem_getLast?_eq_getLast hmemopt
      have hmem : eo ∈ trainLoop o cfg.rank cfg.loggingSteps cfg.maxStopNumber f none
          cfg.numTrainEpochs 0 (initState cfg) := heq ▸ List.getLast_mem hne
      simp [(helem eo hmem).1]
  refine ⟨?_, ?_, ?_, ?_⟩
  · rw [hes0]; exact hlastbroke
  · simp only [Outcome.epochsRun]
    rw [heps0]
    exact trainLoop_full_of_no_stop o cfg.rank cfg.loggingSteps cfg.maxStopNumber f none
      (fun e st => (runEpoch_nodev_obs o cfg.rank cfg.loggingSteps cfg.maxStopNumber f
        e st (hf e)).2.1)
      cfg.numTrainEpochs 0 (initState cfg) hlastbroke
  · have hbind : ((trainLoop o cfg.rank cfg.loggingSteps cfg.maxStopNumber f none
        cfg.numTrainEpochs 0 (initState cfg)).getLast?).bind EpochOut.error = none := by
      cases hlast : (trainLoop o cfg.rank cfg.loggingSteps cfg.maxStopNumber f none
          cfg.numTrainEpochs 0 (initState cfg)).getLast? with
      | none => rfl
      | some eo =>
        have hmemopt : eo ∈ (trainLoop o cfg.rank cfg.loggingSteps cfg.maxStopNumber f
            none cfg.numTrainEpochs 0 (initState cfg)).getLast? := by
          rw [hlast]; rfl
        obtain ⟨hne, heq⟩ := List.mem_getLast?_eq_getLast hmemopt
        have hmem : eo ∈ trainLoop o cfg.rank cfg.loggingSteps cfg.maxStopNumber f none
            cfg.numTrainEpochs 0 (initState cfg) := heq ▸ List.getLast_mem hne
        simp [(helem eo hmem).2.1]
    have herr := herrnone hbind
    rw [herr, ← hfs0]
    have hlo := trainLoop_nodev_final_logOpen o cfg.rank cfg.loggingSteps
      cfg.maxStopNumber f hf cfg.numTrainEpochs 0 (initState cfg)
    rw [← hfs0] at hlo
    by_cases hr0 : cfg.rank = 0
    · simp [finale, hr0, hlo, initState]
    · simp [finale, hr0]
  · intro i eo hi
    rw [heps0] at hi
    obtain ⟨a, b, c, d1, d2, d3⟩ := helem eo (getElem?_some_mem hi)
    exact ⟨a, c, d1, d2, d3⟩

theorem no_dev_full_epochs_witness :
    nCfg.trainDataset = some wLoader
      ∧ (∀ e : Nat, wLoader e ≠ [])
      ∧ nCfg.devDataset = none
      ∧ ((Trainer.train nCfg tOracle).earlyStopped = false
          ∧ (Trainer.train nCfg tOracle).epochsRun = nCfg.numTrainEpochs
          ∧ (Trainer.train nCfg tOracle).error = none
          ∧ ∀ (i : Nat) (eo : EpochOut Unit),
              (Trainer.train nCfg tOracle).epochs[i]? = some eo →
              eo.broke = false ∧ eo.saved = true
                ∧ eo.events.count Ev.saveModelWeights = 1
                ∧ eo.events.count Ev.saveTokenizer = 1
                ∧ eo.events.count Ev.saveTrainingArgs = 1) :=
  ⟨rfl, fun _ => List.cons_ne_nil _ _, rfl,
    no_dev_full_epochs nCfg tOracle wLoader rfl (fun _ => List.cons_ne_nil _ _) rfl⟩

/-- C7: The training cycle is bounded by its configuration: the epoch loop
executes at most `num_train_epochs` iterations; within each epoch the batch
loop visits each batch of that epoch's train dataloader exactly once (one
optimizer step and one gradient-tracked forward pass per batch, and one
per-batch loss per batch); and the reported average train loss of an epoch
equals the sum of the per-batch losses divided by the number of batches in
the dataloader. -/
theorem train_bounded_and_avg (cfg : Config P) (o : Oracle P)
    (f : Nat → List RawBatch)
    (hds : cfg.trainDataset = some f) (hf : ∀ e, f e ≠ []) :
    (Trainer.train cfg o).epochsRun ≤ cfg.numTrainEpochs
      ∧ ∀ (i : Nat) (eo : EpochOut P), (Trainer.train cfg o).epochs[i]? = some eo →
          eo.epochIdx = i
            ∧ eo.events.count Ev.optStep = (f i).length
            ∧ eo.events.count (Ev.forwardPass true) = (f i).length
            ∧ eo.trainLosses.length = (f i).length
            ∧ eo.avgTrainLoss = eo.trainLosses.sum / ((f i).length : ℚ) := by
  have heps0 := (train_parts cfg o f hds).1
  constructor
  · simp only [Outcome.epochsRun]
    rw [heps0]
    exact trainLoop_length_le o cfg.rank cfg.loggingSteps cfg.maxStopNumber f
      cfg.devDataset cfg.numTrainEpochs 0 (initState cfg)
  · intro i eo hi
    rw [heps0] at hi
    have hidx : eo.epochIdx = i := by
      have h := trainLoop_epochIdx o cfg.rank cfg.loggingSteps cfg.maxStopNumber f
        cfg.devDataset cfg.numTrainEpochs 0 (initState cfg) i eo hi
      simpa using h
    obtain ⟨e', st', heo⟩ := trainLoop_elem_isEpoch o cfg.rank cfg.loggingSteps
      cfg.maxStopNumber f cfg.devDataset cfg.numTrainEpochs 0 (initState cfg) eo
      (getElem?_some_mem hi)
    have he' : e' = i := by
      rw [heo, runEpoch_epochIdx] at hidx
      exact hidx
    subst he'
    obtain ⟨c1, c2, c3, c4⟩ := runEpoch_train_obs o cfg.rank cfg.loggingSteps
      cfg.maxStopNumber f cfg.devDataset e' st' (hf e')
    refine ⟨hidx, ?_, ?_, ?_, ?_⟩
    · rw [heo]; exact c1
    · rw [heo]; exact c2
    · rw [heo, c3]; exact batchLossSeq_length o (f e') st'.params st'.t
    · rw [heo, c4, c3]

theorem train_bounded_and_avg_witness :
    tCfg.trainDataset = some wLoader
      ∧ (∀ e : Nat, wLoader e ≠ [])
      ∧ ((Trainer.train tCfg tOracle).epochsRun ≤ tCfg.numTrainEpochs
          ∧ ∀ (i : Nat) (eo : EpochOut Unit),
              (Trainer.train tCfg tOracle).epochs[i]? = some eo →
              eo.epochIdx = i
                ∧ eo.events.count Ev.optStep = (wLoader i).length
                ∧ eo.events.count (Ev.forwardPass true) = (wLoader i).length
                ∧ eo.trainLosses.length = (wLoader i).length
                ∧ eo.avgTrainLoss = eo.trainLosses.sum / ((wLoader i).length : ℚ)) :=
  ⟨rfl, fun _ => List.cons_ne_nil _ _,
    train_bounded_and_avg tCfg tOracle wLoader rfl (fun _ => List.cons_ne_nil _ _)⟩

/-- C5: With a (nonempty) dev dataset, `evaluate` is called exactly once per
epoch (the epoch trace contains a single `model.eval()` switch), after all
training batches of that epoch (every optimizer step of the epoch precedes
the switch, and none follows it), and the "loss" value it returns is the
arithmetic mean — sum divided by the number of validation batches — of the
per-batch masked cross-entropy losses. -/
theorem evaluate_once_per_epoch (cfg : Config P) (o : Oracle P)
    (f : Nat → List RawBatch) (d : List RawBatch)
    (hds : cfg.trainDataset = some f) (hf : ∀ e, f e ≠ [])
    (hdev : cfg.devDataset = some d) (hd : d ≠ []) :
    ∀ (i : Nat) (eo : EpochOut P), (Trainer.train cfg o).epochs[i]? = some eo →
      eo.events.count Ev.setEvalMode = 1
        ∧ (∃ A B : List Ev, eo.events = A ++ Ev.setEvalMode :: B
            ∧ A.count Ev.optStep = (f i).length
            ∧ B.count Ev.optStep = 0
            ∧ A.count Ev.setEvalMode = 0
            ∧ B.count Ev.setEvalMode = 0)
        ∧ ∃ (p : P) (t : Nat) (r : EvalResult),
            eo.evalCall = some (p, t)
              ∧ eo.result = some r
              ∧ r.loss = ((List.range d.length).map
                  (fun j => batchMaskedLoss o p (t + j) (d.getD j ⟨[], []⟩))).sum
                  / (d.length : ℚ) := by
  have heps : (Trainer.train cfg o).epochs
      = trainLoop o cfg.rank cfg.loggingSteps cfg.maxStopNumber f (some d)
          cfg.numTrainEpochs 0 (initState cfg) := by
    rw [(train_parts cfg o f hds).1, hdev]
  intro i eo hi
  rw [heps] at hi
  have hidx : eo.epochIdx = i := by
    have h := trainLoop_epochIdx o cfg.rank cfg.loggingSteps cfg.maxStopNumber f
      (some d) cfg.numTrainEpochs 0 (initState cfg) i eo hi
    simpa using h
  obtain ⟨e', st', heo⟩ := trainLoop_elem_isEpoch o cfg.rank cfg.loggingSteps
    cfg.maxStopNumber f (some d) cfg.numTrainEpochs 0 (initState cfg) eo
    (getElem?_some_mem hi)
  have he' : e' = i := by
    rw [heo, runEpoch_epochIdx] at hidx
    exact hidx
  subst he'
  obtain ⟨hc, A, B, heq, h1, h2, h3, h4⟩ := runEpoch_dev_eval_trace o cfg.rank
    cfg.loggingSteps cfg.maxStopNumber f d e' st' (hf e') hd
  obtain ⟨p, t, r, hcall, hres, hloss⟩ := runEpoch_dev_result_loss o cfg.rank
    cfg.loggingSteps cfg.maxStopNumber f d e' st' (hf e') hd
  rw [heo]
  exact ⟨hc, ⟨A, B, heq, h1, h2, h3, h4⟩, p, t, r, hcall, hres, hloss⟩

theorem evaluate_once_per_epoch_witness :
    tCfg.trainDataset = some wLoader
      ∧ (∀ e : Nat, wLoader e ≠ [])
      ∧ tCfg.devDataset = some [wBatch]
      ∧ ([wBatch] : List RawBatch) ≠ []
      ∧ ∀ (i : Nat) (eo : EpochOut Unit),
          (Trainer.train tCfg tOracle).epochs[i]? = some eo →
          eo.events.count Ev.setEvalMode = 1
            ∧ (∃ A B : List Ev, eo.events = A ++ Ev.setEvalMode :: B
                ∧ A.count Ev.optStep = (wLoader i).length
                ∧ B.count Ev.optStep = 0
                ∧ A.count Ev.setEvalMode = 0
                ∧ B.count Ev.setEvalMode = 0)
            ∧ ∃ (p : Unit) (t : Nat) (r : EvalResult),
                eo.evalCall = some (p, t)
                  ∧ eo.result = some r
                  ∧ r.loss = ((List.range ([wBatch] : List RawBatch).length).map
                      (fun j => batchMaskedLoss tOracle p (t + j)
                        (([wBatch] : List RawBatch).getD j ⟨[], []⟩))).sum
                      / (([wBatch] : List RawBatch).length : ℚ) :=
  ⟨rfl, fun _ => List.cons_ne_nil _ _, rfl, List.cons_ne_nil _ _,
    evaluate_once_per_epoch tCfg tOracle wLoader [wBatch] rfl
      (fun _ => List.cons_ne_nil _ _) rfl (List.cons_ne_nil _ _)⟩

end DsTrainer
